import Mathlib

/-!
Verification of TheQueue's readiness / material-availability engine and its
labor and receipt orchestrators against the natural-language specification.

The definitions below are shallow embeddings of the Python code in
`app/logic/queries.py` and `app/logic/epicor_api.py`.  SQL queries are
embedded as list-processing functions over snapshot rows (one Lean structure
per relevant table, a single company), numeric columns are modelled as exact
rationals, and remote Epicor calls are modelled as explicit response oracles
together with a trace of the remote steps the orchestrator performed.
-/

namespace TheQueue

/-- A job material requirement joined with its aggregated inventory row:
`inv = some (onHandSum, demandSum)` when the part occurs in `PartQty`,
`none` when it does not (the SQL `LEFT JOIN` then produces NULL sums). -/
structure MatData where
  requiredQty : ℚ
  inv : Option (ℚ × ℚ)
deriving DecidableEq, Repr

/-- On-hand quantity as every code path reads it: a missing inventory row
counts as 0 (`ISNULL(pq.OnHandQty, 0)` in SQL, `inv.get('OnHandQty', 0) or 0`
in Python). -/
def MatData.onHand (m : MatData) : ℚ := (m.inv.map Prod.fst).getD 0

/-- Effective demand in the Python paths: `inv.get('DemandQty', 0) or required`
— an absent inventory row or a zero demand sum falls back to the job's
required quantity. -/
def MatData.effDemand (m : MatData) : ℚ :=
  let d := (m.inv.map Prod.snd).getD 0
  if d = 0 then m.requiredQty else d

/-- Demand as the `StarMtls` column of the `MaterialAgg` CTE in
`get_jobs_for_workcell` reads it: `ISNULL(pq.DemandQty, jm.RequiredQty)`. -/
def MatData.sqlDemandStar (m : MatData) : ℚ :=
  match m.inv with
  | none => m.requiredQty
  | some p => p.2

/-- Demand as the `CheckMtls` column of the `MaterialAgg` CTE reads it:
`ISNULL(pq.DemandQty, jm.RequiredQty + 1)`. -/
def MatData.sqlDemandChk (m : MatData) : ℚ :=
  match m.inv with
  | none => m.requiredQty + 1
  | some p => p.2

/-- Per-material `Status` computed by the single-operation path
`get_job_materials` (queries.py, the merge loop after the inventory lookup):
`star` if on-hand covers demand, else `check` if it covers the requirement,
else `partial` if positive, else `missing`. -/
def singleMaterialStatus (m : MatData) : String :=
  if m.effDemand ≤ m.onHand then "star"
  else if m.requiredQty ≤ m.onHand then "check"
  else if 0 < m.onHand then "partial"
  else "missing"

/-- The per-operation `Status` an operation receives from the single-operation
path when its attributed materials are exactly `mats`: `get_job_materials`
emits one status per material, and the operation-level tier is read off with
the `missing > partial > check > star` priority (`none` when no materials). -/
def singlePathOpStatus (mats : List MatData) : String :=
  if mats.isEmpty then "none"
  else if mats.any (fun m => singleMaterialStatus m == "missing") then "missing"
  else if mats.any (fun m => singleMaterialStatus m == "partial") then "partial"
  else if mats.any (fun m => singleMaterialStatus m == "check") then "check"
  else "star"

/-- Accumulator of the material-status loop in `get_active_labor_details`:
`has_missing`, `has_partial`, `has_check`, `all_star`. -/
structure MtlFlags where
  mMiss : Bool
  mPart : Bool
  mChk : Bool
  mStar : Bool
deriving DecidableEq, Repr

/-- One iteration of the material loop in `get_active_labor_details`:
`on_hand == 0` sets `has_missing`, else `on_hand < required` sets
`has_partial`, else `on_hand < demand` sets `has_check`; each branch clears
`all_star`. -/
def mtlFlagStep (acc : MtlFlags) (m : MatData) : MtlFlags :=
  if m.onHand = 0 then { acc with mMiss := true, mStar := false }
  else if m.onHand < m.requiredQty then { acc with mPart := true, mStar := false }
  else if m.onHand < m.effDemand then { acc with mChk := true, mStar := false }
  else acc

/-- Resolution of the accumulated flags at the end of the material loop of
`get_active_labor_details`: priority `missing > partial > check > star`
(the initial `'none'` survives only if no branch fires). -/
def resolveFlags (acc : MtlFlags) : String :=
  if acc.mMiss then "missing"
  else if acc.mPart then "partial"
  else if acc.mChk then "check"
  else if acc.mStar then "star"
  else "none"

/-- Operation-level material status computed by the bulk Python path
`get_active_labor_details` (queries.py): fold the flags over the attributed
materials, then resolve with priority `missing > partial > check > star`,
`none` for an empty material list. -/
def activeLaborMtlStatus (mats : List MatData) : String :=
  if mats.isEmpty then "none"
  else resolveFlags (mats.foldl mtlFlagStep ⟨false, false, false, true⟩)

/-- Operation-level `MtlStatus` computed by the `MaterialAgg` CTE and the
`CASE` expression of `get_jobs_for_workcell` (queries.py): per-material
category counts, then `none` if no materials, `missing` if any on-hand is 0,
`partial` if any is positive but below the requirement, `check` if any covers
the requirement but not demand, `star` if every material counted as star. -/
def mtlStatusAgg (mats : List MatData) : String :=
  let total := mats.length
  let starMtls := mats.countP (fun m => decide (m.sqlDemandStar ≤ m.onHand))
  let chkMtls := mats.countP (fun m => decide (m.requiredQty ≤ m.onHand ∧ m.onHand < m.sqlDemandChk))
  let partMtls := mats.countP (fun m => decide (0 < m.onHand ∧ m.onHand < m.requiredQty))
  let noneMtls := mats.countP (fun m => decide (m.onHand = 0))
  if total = 0 then "none"
  else if 0 < noneMtls then "missing"
  else if 0 < partMtls then "partial"
  else if 0 < chkMtls then "check"
  else if starMtls = total then "star"
  else "none"

/-- Python's `int()` conversion on a rational: truncation toward zero. -/
def pyInt (q : ℚ) : Int := if 0 ≤ q then ⌊q⌋ else -⌊-q⌋

/-- On nonnegative rationals, Python's `int()` truncation is the floor. -/
theorem pyInt_eq_floor (q : ℚ) (h : 0 ≤ q) : pyInt q = ⌊q⌋ := by
  unfold pyInt
  rw [if_pos h]

/-- One iteration of the max-producible computation in
`get_active_labor_details`: when `required > 0 and prod_qty > 0` and the
per-unit need is positive, fold `on_hand / (required / prod_qty)` into the
running minimum (`none` plays the role of `float('inf')`). -/
def producibleStep (prodQty : ℚ) (acc : Option ℚ) (m : MatData) : Option ℚ :=
  if 0 < m.requiredQty ∧ 0 < prodQty then
    let perUnitNeed := m.requiredQty / prodQty
    if 0 < perUnitNeed then
      let canMake := m.onHand / perUnitNeed
      match acc with
      | none => some canMake
      | some a => some (min a canMake)
    else acc
  else acc

/-- `MaxMtlQty` computed by `get_active_labor_details`: the truncated minimum
producible quantity across the materials, `none` (no material constraint)
when the loop never ran or no material bounded it. -/
def maxMtlQty (prodQty : ℚ) (mats : List MatData) : Option Int :=
  if mats.isEmpty then none
  else (mats.foldl (producibleStep prodQty) none).map pyInt

/-- C1: the bulk material-sufficiency computation does NOT assign the same
tier as the single-operation path on all data.  For an operation whose single
attributed material has on-hand 5, required 10 and shop demand 2 (demand
below the requirement, as happens once part of the requirement has been
issued), the single-operation path `get_job_materials` classifies the
material — and hence the operation — `star` (it tests `on_hand >= demand`
first), while both bulk paths (`get_active_labor_details` and the
`MaterialAgg`/`MtlStatus` aggregation of `get_jobs_for_workcell`) classify
the operation `partial` (they test `on_hand < required` first, the priority
order the specification itself prescribes). -/
theorem bulk_single_status_diverge :
    singleMaterialStatus ⟨10, some (5, 2)⟩ = "star" ∧
    singlePathOpStatus [⟨10, some (5, 2)⟩] = "star" ∧
    activeLaborMtlStatus [⟨10, some (5, 2)⟩] = "partial" ∧
    mtlStatusAgg [⟨10, some (5, 2)⟩] = "partial" := by
  decide

/-- The flag fold of `get_active_labor_details` computes, for each flag, an
`any` (resp. `all`) over the per-material firing conditions of the loop. -/
theorem mtlFlags_foldl (mats : List MatData) (acc : MtlFlags) :
    (mats.foldl mtlFlagStep acc).mMiss
        = (acc.mMiss || mats.any fun m => decide (m.onHand = 0)) ∧
    (mats.foldl mtlFlagStep acc).mPart
        = (acc.mPart || mats.any fun m =>
            decide (¬ m.onHand = 0 ∧ m.onHand < m.requiredQty)) ∧
    (mats.foldl mtlFlagStep acc).mChk
        = (acc.mChk || mats.any fun m =>
            decide (¬ m.onHand = 0 ∧ ¬ m.onHand < m.requiredQty ∧ m.onHand < m.effDemand)) ∧
    (mats.foldl mtlFlagStep acc).mStar
        = (acc.mStar && mats.all fun m =>
            decide (¬ m.onHand = 0 ∧ ¬ m.onHand < m.requiredQty ∧ ¬ m.onHand < m.effDemand)) := by
  induction mats generalizing acc with
  | nil => simp
  | cons m rest ih =>
    simp only [List.foldl_cons, List.any_cons, List.all_cons]
    obtain ⟨h1, h2, h3, h4⟩ := ih (mtlFlagStep acc m)
    rw [h1, h2, h3, h4]
    unfold mtlFlagStep
    by_cases hm : m.onHand = 0
    · simp [hm]
    · by_cases hp : m.onHand < m.requiredQty
      · simp [hm, hp]
      · by_cases hc : m.onHand < m.effDemand
        · simp [hm, hp, hc]
        · simp [hm, hp, hc]

/-- C2: for materials with positive requirements and nonnegative on-hand
quantities, both bulk implementations of the operation-level sufficiency tier
(the Python loop of `get_active_labor_details` and the `MaterialAgg` SQL
aggregation of `get_jobs_for_workcell`) realize exactly the specified
priority order: `missing` if some on-hand is 0, else `partial` if some
on-hand is positive but below the requirement, else `check` if some on-hand
covers the requirement but not the (required-defaulted) demand, else `star`;
an operation with no attributed materials gets `none`. -/
theorem material_status_priority (mats : List MatData)
    (hreq : ∀ m ∈ mats, 0 < m.requiredQty)
    (hoh : ∀ m ∈ mats, 0 ≤ m.onHand) :
    activeLaborMtlStatus mats =
      (if mats = [] then "none"
       else if ∃ m ∈ mats, m.onHand = 0 then "missing"
       else if ∃ m ∈ mats, 0 < m.onHand ∧ m.onHand < m.requiredQty then "partial"
       else if ∃ m ∈ mats, m.requiredQty ≤ m.onHand ∧ m.onHand < m.effDemand then "check"
       else "star") ∧
    mtlStatusAgg mats =
      (if mats = [] then "none"
       else if ∃ m ∈ mats, m.onHand = 0 then "missing"
       else if ∃ m ∈ mats, 0 < m.onHand ∧ m.onHand < m.requiredQty then "partial"
       else if ∃ m ∈ mats, m.requiredQty ≤ m.onHand ∧ m.onHand < m.effDemand then "check"
       else "star") := by
  by_cases hnil : mats = []
  · subst hnil; constructor <;> rfl
  have hne : mats.isEmpty = false := by
    simpa [List.isEmpty_iff] using hnil
  have hlen : ¬ mats.length = 0 := by
    simpa [List.length_eq_zero] using hnil
  by_cases e1 : ∃ m ∈ mats, m.onHand = 0
  · -- some material missing
    have hA : (mats.any fun m => decide (m.onHand = 0)) = true := by
      rw [List.any_eq_true]; simpa using e1
    have hN : 0 < mats.countP (fun m => decide (m.onHand = 0)) := by
      rw [List.countP_pos_iff]; simpa using e1
    obtain ⟨h1, _, _, _⟩ := mtlFlags_foldl mats ⟨false, false, false, true⟩
    constructor
    · unfold activeLaborMtlStatus resolveFlags
      rw [hne, if_neg (by simp), h1, hA]
      simp [hnil, e1]
    · unfold mtlStatusAgg
      rw [if_neg hlen, if_pos hN]
      simp [hnil, e1]
  · -- no missing material: every on-hand is nonzero, hence positive
    have hpos : ∀ m ∈ mats, 0 < m.onHand := by
      intro m hm
      rcases lt_or_eq_of_le (hoh m hm) with h | h
      · exact h
      · exact absurd ⟨m, hm, h.symm⟩ e1
    have hA : (mats.any fun m => decide (m.onHand = 0)) = false := by
      rw [Bool.eq_false_iff]
      intro h
      rw [List.any_eq_true] at h
      exact e1 (by simpa using h)
    have hN : ¬ 0 < mats.countP (fun m => decide (m.onHand = 0)) := by
      rw [List.countP_pos_iff]
      intro h; exact e1 (by simpa using h)
    by_cases e2 : ∃ m ∈ mats, 0 < m.onHand ∧ m.onHand < m.requiredQty
    · -- some material partial
      have hB : (mats.any fun m =>
          decide (¬ m.onHand = 0 ∧ m.onHand < m.requiredQty)) = true := by
        rw [List.any_eq_true]
        obtain ⟨m, hm, h0, hlt⟩ := e2
        exact ⟨m, hm, by simpa using ⟨ne_of_gt h0, hlt⟩⟩
      have hP : 0 < mats.countP
          (fun m => decide (0 < m.onHand ∧ m.onHand < m.requiredQty)) := by
        rw [List.countP_pos_iff]; simpa using e2
      obtain ⟨h1, h2, _, _⟩ := mtlFlags_foldl mats ⟨false, false, false, true⟩
      constructor
      · unfold activeLaborMtlStatus resolveFlags
        rw [hne, if_neg (by simp), h1, hA, h2, hB]
        simp [hnil, e1, e2]
      · unfold mtlStatusAgg
        rw [if_neg hlen, if_neg hN, if_pos hP]
        simp [hnil, e1, e2]
    · -- no partial material: every on-hand covers the requirement
      have hcov : ∀ m ∈ mats, m.requiredQty ≤ m.onHand := by
        intro m hm
        by_contra hlt
        exact e2 ⟨m, hm, hpos m hm, lt_of_not_le hlt⟩
      have hB : (mats.any fun m =>
          decide (¬ m.onHand = 0 ∧ m.onHand < m.requiredQty)) = false := by
        rw [Bool.eq_false_iff]
        intro h
        rw [List.any_eq_true] at h
        obtain ⟨m, hm, h'⟩ := h
        rw [decide_eq_true_eq] at h'
        exact absurd h'.2 (not_lt.mpr (hcov m hm))
      have hP : ¬ 0 < mats.countP
          (fun m => decide (0 < m.onHand ∧ m.onHand < m.requiredQty)) := by
        rw [List.countP_pos_iff]
        rintro ⟨m, hm, h'⟩
        rw [decide_eq_true_eq] at h'
        exact e2 ⟨m, hm, h'⟩
      by_cases e3 : ∃ m ∈ mats, m.requiredQty ≤ m.onHand ∧ m.onHand < m.effDemand
      · -- some material check
        have hC : (mats.any fun m =>
            decide (¬ m.onHand = 0 ∧ ¬ m.onHand < m.requiredQty ∧
              m.onHand < m.effDemand)) = true := by
          rw [List.any_eq_true]
          obtain ⟨m, hm, hge, hlt⟩ := e3
          refine ⟨m, hm, ?_⟩
          rw [decide_eq_true_eq]
          exact ⟨ne_of_gt (hpos m hm), not_lt.mpr hge, hlt⟩
        have hK : 0 < mats.countP (fun m =>
            decide (m.requiredQty ≤ m.onHand ∧ m.onHand < m.sqlDemandChk)) := by
          rw [List.countP_pos_iff]
          obtain ⟨m, hm, hge, hlt⟩ := e3
          refine ⟨m, hm, ?_⟩
          rw [decide_eq_true_eq]
          refine ⟨hge, ?_⟩
          -- on-hand is positive, so the inventory row is present
          rcases hinv : m.inv with _ | p
          · exact absurd (by simp [MatData.onHand, hinv]) (ne_of_gt (hpos m hm))
          · have hd : m.sqlDemandChk = p.2 := by simp [MatData.sqlDemandChk, hinv]
            rw [hd]
            by_cases hz : p.2 = 0
            · -- zero recorded demand: effDemand = required, contradicting hge < hlt
              have : m.effDemand = m.requiredQty := by
                simp [MatData.effDemand, hinv, hz]
              rw [this] at hlt
              exact absurd hlt (not_lt.mpr hge)
            · have : m.effDemand = p.2 := by
                simp [MatData.effDemand, hinv, hz]
              rw [← this]; exact hlt
        obtain ⟨h1, h2, h3, _⟩ := mtlFlags_foldl mats ⟨false, false, false, true⟩
        constructor
        · unfold activeLaborMtlStatus resolveFlags
          rw [hne, if_neg (by simp), h1, hA, h2, hB, h3, hC]
          simp [hnil, e1, e2, e3]
        · unfold mtlStatusAgg
          rw [if_neg hlen, if_neg hN, if_neg hP, if_pos hK]
          simp [hnil, e1, e2, e3]
      · -- star: every material covers its demand
        have hstarAll : ∀ m ∈ mats, m.effDemand ≤ m.onHand := by
          intro m hm
          by_contra hlt
          exact e3 ⟨m, hm, hcov m hm, lt_of_not_le hlt⟩
        have hC : (mats.any fun m =>
            decide (¬ m.onHand = 0 ∧ ¬ m.onHand < m.requiredQty ∧
              m.onHand < m.effDemand)) = false := by
          rw [Bool.eq_false_iff]
          intro h
          rw [List.any_eq_true] at h
          obtain ⟨m, hm, h'⟩ := h
          rw [decide_eq_true_eq] at h'
          exact absurd h'.2.2 (not_lt.mpr (hstarAll m hm))
        have hK : ¬ 0 < mats.countP (fun m =>
            decide (m.requiredQty ≤ m.onHand ∧ m.onHand < m.sqlDemandChk)) := by
          rw [List.countP_pos_iff]
          rintro ⟨m, hm, h'⟩
          rw [decide_eq_true_eq] at h'
          rcases hinv : m.inv with _ | p
          · exact absurd (by simp [MatData.onHand, hinv]) (ne_of_gt (hpos m hm))
          · have hd : m.sqlDemandChk = p.2 := by simp [MatData.sqlDemandChk, hinv]
            rw [hd] at h'
            by_cases hz : p.2 = 0
            · rw [hz] at h'
              exact absurd h'.2 (not_lt.mpr (le_of_lt (hpos m hm)))
            · have : m.effDemand = p.2 := by simp [MatData.effDemand, hinv, hz]
              exact e3 ⟨m, hm, h'.1, this ▸ h'.2⟩
        have hS : (mats.all fun m =>
            decide (¬ m.onHand = 0 ∧ ¬ m.onHand < m.requiredQty ∧
              ¬ m.onHand < m.effDemand)) = true := by
          rw [List.all_eq_true]
          intro m hm
          rw [decide_eq_true_eq]
          exact ⟨ne_of_gt (hpos m hm), not_lt.mpr (hcov m hm),
            not_lt.mpr (hstarAll m hm)⟩
        have hStarCnt : mats.countP
            (fun m => decide (m.sqlDemandStar ≤ m.onHand)) = mats.length := by
          rw [List.countP_eq_length]
          intro m hm
          rw [decide_eq_true_eq]
          rcases hinv : m.inv with _ | p
          · exact absurd (by simp [MatData.onHand, hinv]) (ne_of_gt (hpos m hm))
          · have hd : m.sqlDemandStar = p.2 := by simp [MatData.sqlDemandStar, hinv]
            rw [hd]
            by_cases hz : p.2 = 0
            · rw [hz]; exact le_of_lt (hpos m hm)
            · have : m.effDemand = p.2 := by simp [MatData.effDemand, hinv, hz]
              exact this ▸ hstarAll m hm
        obtain ⟨h1, h2, h3, h4⟩ := mtlFlags_foldl mats ⟨false, false, false, true⟩
        constructor
        · unfold activeLaborMtlStatus resolveFlags
          rw [hne, if_neg (by simp), h1, hA, h2, hB, h3, hC, h4, hS]
          simp [hnil, e1, e2, e3]
        · unfold mtlStatusAgg
          rw [if_neg hlen, if_neg hN, if_neg hP, if_neg hK, if_pos hStarCnt]
          simp [hnil, e1, e2, e3]

/-- Witness for `material_status_priority` at the specification's own example
inputs (required 5, demands 5 and 8). -/
theorem material_status_priority_witness :
    activeLaborMtlStatus [⟨5, some (0, 5)⟩] = "missing" ∧
    activeLaborMtlStatus [⟨5, some (3, 5)⟩] = "partial" ∧
    activeLaborMtlStatus [⟨5, some (5, 8)⟩] = "check" ∧
    mtlStatusAgg [⟨5, some (8, 8)⟩] = "star" := by
  refine ⟨?_, ?_, ?_, ?_⟩
  · rw [(material_status_priority [⟨5, some (0, 5)⟩] (by decide) (by decide)).1]
    decide
  · rw [(material_status_priority [⟨5, some (3, 5)⟩] (by decide) (by decide)).1]
    decide
  · rw [(material_status_priority [⟨5, some (5, 8)⟩] (by decide) (by decide)).1]
    decide
  · rw [(material_status_priority [⟨5, some (8, 8)⟩] (by decide) (by decide)).2]
    decide

/-- Each step of the producible fold either folds in the claimed quotient or
leaves the accumulator unchanged, according to the filter predicate. -/
theorem producibleStep_eq (prodQty : ℚ) (acc : Option ℚ) (m : MatData) :
    producibleStep prodQty acc m =
      if 0 < m.requiredQty ∧ 0 < prodQty then
        some (match acc with
              | none => m.onHand / (m.requiredQty / prodQty)
              | some a => min a (m.onHand / (m.requiredQty / prodQty)))
      else acc := by
  unfold producibleStep
  by_cases h : 0 < m.requiredQty ∧ 0 < prodQty
  · rw [if_pos h, if_pos h, if_pos (div_pos h.1 h.2)]
    cases acc <;> rfl
  · rw [if_neg h, if_neg h]

/-- The producible fold started from `some a` computes the running minimum of
the quotients of the filtered materials. -/
theorem producible_foldl_some (prodQty : ℚ) (mats : List MatData) (a : ℚ) :
    mats.foldl (producibleStep prodQty) (some a) =
      some (((mats.filter fun m =>
          decide (0 < m.requiredQty ∧ 0 < prodQty)).map fun m =>
            m.onHand / (m.requiredQty / prodQty)).foldl min a) := by
  induction mats generalizing a with
  | nil => simp
  | cons m rest ih =>
    rw [List.foldl_cons, producibleStep_eq]
    by_cases h : 0 < m.requiredQty ∧ 0 < prodQty
    · rw [if_pos h, ih, List.filter_cons_of_pos (by simpa using h)]
      simp
    · rw [if_neg h, ih, List.filter_cons_of_neg (by simpa using h)]

/-- The producible fold started from `none` (the `float('inf')` sentinel)
returns `none` exactly when no material passes the filter, and otherwise the
minimum of the quotients of the filtered materials. -/
theorem producible_foldl_none (prodQty : ℚ) (mats : List MatData) :
    mats.foldl (producibleStep prodQty) none =
      match mats.filter fun m => decide (0 < m.requiredQty ∧ 0 < prodQty) with
      | [] => none
      | b :: bs =>
        some ((bs.map fun m => m.onHand / (m.requiredQty / prodQty)).foldl min
          (b.onHand / (b.requiredQty / prodQty))) := by
  induction mats with
  | nil => simp
  | cons m rest ih =>
    rw [List.foldl_cons, producibleStep_eq]
    by_cases h : 0 < m.requiredQty ∧ 0 < prodQty
    · rw [if_pos h, List.filter_cons_of_pos (by simpa using h),
        producible_foldl_some]
    · rw [if_neg h, ih, List.filter_cons_of_neg (by simpa using h)]

/-- A fold of `min` over nonnegative rationals starting from a nonnegative
value stays nonnegative. -/
theorem foldl_min_nonneg (l : List ℚ) (a : ℚ) (ha : 0 ≤ a)
    (hl : ∀ x ∈ l, 0 ≤ x) : 0 ≤ l.foldl min a := by
  induction l generalizing a with
  | nil => simpa using ha
  | cons x rest ih =>
    rw [List.foldl_cons]
    exact ih (min a x) (le_min ha (hl x (List.mem_cons_self x rest)))
      (fun y hy => hl y (List.mem_cons_of_mem x hy))

/-- C9: for every operation, the maximum producible quantity computed by
`get_active_labor_details` is the floor of the minimum of
`on_hand / (required / prod_qty)` over the materials with positive
requirement and positive production quantity, and `none` (no material
constraint) when no material bounds it.  Nonnegative on-hand quantities make
Python's `int()` truncation agree with the floor. -/
theorem max_producible_eq (prodQty : ℚ) (mats : List MatData)
    (hoh : ∀ m ∈ mats, 0 ≤ m.onHand) :
    maxMtlQty prodQty mats =
      match mats.filter fun m => decide (0 < m.requiredQty ∧ 0 < prodQty) with
      | [] => none
      | b :: bs =>
        some ⌊(bs.map fun m => m.onHand / (m.requiredQty / prodQty)).foldl min
          (b.onHand / (b.requiredQty / prodQty))⌋ := by
  unfold maxMtlQty
  by_cases hnil : mats.isEmpty
  · rw [if_pos hnil]
    rw [List.isEmpty_iff] at hnil
    subst hnil
    simp
  · rw [if_neg hnil, producible_foldl_none]
    rcases hf : mats.filter
        (fun m => decide (0 < m.requiredQty ∧ 0 < prodQty)) with _ | ⟨b, bs⟩
    · rw [hf]
      rfl
    · rw [hf]
      have hquot : ∀ m ∈ mats.filter
          (fun m => decide (0 < m.requiredQty ∧ 0 < prodQty)),
          0 ≤ m.onHand / (m.requiredQty / prodQty) := by
        intro m hm
        have hmem := List.mem_of_mem_filter hm
        have hp := List.of_mem_filter hm
        rw [decide_eq_true_eq] at hp
        exact div_nonneg (hoh m hmem) (le_of_lt (div_pos hp.1 hp.2))
      have hmin : 0 ≤ (bs.map fun m =>
          m.onHand / (m.requiredQty / prodQty)).foldl min
            (b.onHand / (b.requiredQty / prodQty)) := by
        refine foldl_min_nonneg _ _ (hquot b (hf ▸ List.mem_cons_self b bs)) ?_
        intro x hx
        rw [List.mem_map] at hx
        obtain ⟨m, hm, rfl⟩ := hx
        exact hquot m (hf ▸ List.mem_cons_of_mem b hm)
      simp only [Option.map_some']
      rw [pyInt_eq_floor _ hmin]

/-- Witness for `max_producible_eq`: two materials, on-hand 7 and 9, required
2 and 3, production quantity 4 — the constraint is `min (7/(2/4), 9/(3/4)) =
12`, truncated to 12. -/
theorem max_producible_eq_witness :
    maxMtlQty 4 [⟨2, some (7, 7)⟩, ⟨3, some (9, 9)⟩] = some 12 := by
  rw [max_producible_eq 4 [⟨2, some (7, 7)⟩, ⟨3, some (9, 9)⟩] (by decide)]
  norm_num [List.filter_cons, MatData.onHand, min_def]

/-- One operation row as seen by the backflush-ownership walk of
`get_bulk_materials` (queries.py).  The walk runs per (job, assembly) group
over the operations in sequence order, so within a group an operation is
identified by its sequence number. -/
structure WalkOp where
  oprSeq : Int
  laborEntryMethod : String
  opCode : String
deriving DecidableEq, Repr

/-- `LaborEntryMethod == 'B'`: a backflush operation. -/
def WalkOp.isBackflush (op : WalkOp) : Bool := op.laborEntryMethod == "B"

/-- The ownership walk of `get_bulk_materials` for one (job, assembly) group:
accumulate pending non-PAINT backflush operations; a countable (quantity)
operation owns the pending list plus itself and resets the accumulator;
backflush operations left pending at the end own nothing. -/
def buildOwnership : List WalkOp → List Int → List (Int × List Int)
  | [], _ => []
  | op :: rest, pending =>
    if op.isBackflush then
      if op.opCode == "PAINT" then buildOwnership rest pending
      else buildOwnership rest (pending ++ [op.oprSeq])
    else (op.oprSeq, pending ++ [op.oprSeq]) :: buildOwnership rest []

/-- First countable operation of a sequence-ordered operation list. -/
def firstCountableSeq (ops : List WalkOp) : Option Int :=
  (ops.find? fun op => !op.isBackflush).map WalkOp.oprSeq

/-- Next countable operation strictly after sequence `s` in a
sequence-ordered operation list. -/
def nextCountableSeq (ops : List WalkOp) (s : Int) : Option Int :=
  (ops.find? fun op => !op.isBackflush && decide (s < op.oprSeq)).map WalkOp.oprSeq

theorem firstCountableSeq_cons_bf {op : WalkOp} (rest : List WalkOp)
    (hb : op.isBackflush = true) :
    firstCountableSeq (op :: rest) = firstCountableSeq rest := by
  unfold firstCountableSeq
  rw [List.find?_cons_of_neg _ (by simp [hb])]

theorem firstCountableSeq_cons_countable {op : WalkOp} (rest : List WalkOp)
    (hb : op.isBackflush = false) :
    firstCountableSeq (op :: rest) = some op.oprSeq := by
  unfold firstCountableSeq
  rw [List.find?_cons_of_pos _ (by simp [hb])]
  rfl

theorem nextCountableSeq_cons_bf {op : WalkOp} (rest : List WalkOp) (s : Int)
    (hb : op.isBackflush = true) :
    nextCountableSeq (op :: rest) s = nextCountableSeq rest s := by
  unfold nextCountableSeq
  rw [List.find?_cons_of_neg _ (by simp [hb])]

theorem nextCountableSeq_cons_ge {op : WalkOp} (rest : List WalkOp) (s : Int)
    (hge : ¬ s < op.oprSeq) :
    nextCountableSeq (op :: rest) s = nextCountableSeq rest s := by
  unfold nextCountableSeq
  rw [List.find?_cons_of_neg _ (by simp [hge])]

/-- When `s` precedes every operation in the list, the next countable
operation after `s` is simply the first countable operation. -/
theorem nextCountableSeq_eq_first (ops : List WalkOp) (s : Int)
    (h : ∀ op ∈ ops, s < op.oprSeq) :
    nextCountableSeq ops s = firstCountableSeq ops := by
  induction ops with
  | nil => rfl
  | cons op rest ih =>
    have hlt : s < op.oprSeq := h op (List.mem_cons_self op rest)
    by_cases hb : op.isBackflush
    · rw [nextCountableSeq_cons_bf rest s hb, firstCountableSeq_cons_bf rest hb]
      exact ih fun x hx => h x (List.mem_cons_of_mem op hx)
    · have hb' : op.isBackflush = false := by simpa using hb
      rw [firstCountableSeq_cons_countable rest hb']
      unfold nextCountableSeq
      rw [List.find?_cons_of_pos _ (by simp [hb', hlt])]
      rfl

/-- The keys of the ownership mapping are exactly the countable operations,
in order. -/
theorem buildOwnership_keys (ops : List WalkOp) (pending : List Int) :
    (buildOwnership ops pending).map Prod.fst
      = (ops.filter fun op => !op.isBackflush).map WalkOp.oprSeq := by
  induction ops generalizing pending with
  | nil => rfl
  | cons op rest ih =>
    unfold buildOwnership
    by_cases hb : op.isBackflush
    · rw [if_pos hb, List.filter_cons_of_neg (by simp [hb])]
      by_cases hp : op.opCode == "PAINT"
      · rw [if_pos hp, ih]
      · rw [if_neg hp, ih]
    · rw [if_neg hb, List.filter_cons_of_pos (by simp [hb])]
      simp only [List.map_cons]
      rw [ih]

/-- Every member of an owned list is either carried over from the initial
pending accumulator or is the sequence of some operation of the list. -/
theorem buildOwnership_mem_src {ops : List WalkOp} {pending : List Int}
    {o x : Int} {l : List Int} (hol : (o, l) ∈ buildOwnership ops pending)
    (hx : x ∈ l) : x ∈ pending ∨ ∃ op ∈ ops, op.oprSeq = x := by
  induction ops generalizing pending with
  | nil => cases hol
  | cons op rest ih =>
    unfold buildOwnership at hol
    by_cases hb : op.isBackflush
    · rw [if_pos hb] at hol
      by_cases hp : op.opCode == "PAINT"
      · rw [if_pos hp] at hol
        rcases ih hol with h | ⟨op', hop', hseq⟩
        · exact Or.inl h
        · exact Or.inr ⟨op', List.mem_cons_of_mem op hop', hseq⟩
      · rw [if_neg hp] at hol
        rcases ih hol with h | ⟨op', hop', hseq⟩
        · rcases List.mem_append.mp h with h' | h'
          · exact Or.inl h'
          · refine Or.inr ⟨op, List.mem_cons_self op rest, ?_⟩
            simp only [List.mem_singleton] at h'
            exact h'.symm
        · exact Or.inr ⟨op', List.mem_cons_of_mem op hop', hseq⟩
    · rw [if_neg hb] at hol
      rcases List.mem_cons.mp hol with heq | htail
      · rw [Prod.mk.injEq] at heq
        rw [heq.2] at hx
        rcases List.mem_append.mp hx with h' | h'
        · exact Or.inl h'
        · refine Or.inr ⟨op, List.mem_cons_self op rest, ?_⟩
          simp only [List.mem_singleton] at h'
          exact h'.symm
      · rcases ih htail with h | ⟨op', hop', hseq⟩
        · cases h
        · exact Or.inr ⟨op', List.mem_cons_of_mem op hop', hseq⟩

/-- Characterization of ownership over a sequence-sorted operation list: a
sequence `x` owned by key `o` is either an initially-pending sequence flushed
into the first countable operation, or the key itself, or the sequence of a
non-PAINT backflush operation whose next countable operation is `o`. -/
theorem buildOwnership_mem_char {ops : List WalkOp} {pending : List Int}
    (hs : ops.Pairwise fun a b => a.oprSeq < b.oprSeq)
    {o x : Int} {l : List Int} (hol : (o, l) ∈ buildOwnership ops pending)
    (hx : x ∈ l) :
    (x ∈ pending ∧ firstCountableSeq ops = some o) ∨ x = o ∨
      ∃ op ∈ ops, op.oprSeq = x ∧ op.isBackflush = true ∧
        op.opCode ≠ "PAINT" ∧ nextCountableSeq ops x = some o := by
  induction ops generalizing pending with
  | nil => cases hol
  | cons op rest ih =>
    rw [List.pairwise_cons] at hs
    obtain ⟨hlt, hrest⟩ := hs
    by_cases hb : op.isBackflush
    · rw [buildOwnership, if_pos hb] at hol
      by_cases hp : op.opCode == "PAINT"
      · rw [if_pos hp] at hol
        rcases ih hrest hol with ⟨hxp, hfc⟩ | hxo | ⟨op', hop', hseq, hbf', hpnt', hnext⟩
        · exact Or.inl ⟨hxp, by rw [firstCountableSeq_cons_bf rest hb]; exact hfc⟩
        · exact Or.inr (Or.inl hxo)
        · exact Or.inr (Or.inr ⟨op', List.mem_cons_of_mem op hop', hseq, hbf', hpnt',
            by rw [nextCountableSeq_cons_bf rest x hb]; exact hnext⟩)
      · rw [if_neg hp] at hol
        rcases ih hrest hol with ⟨hxp, hfc⟩ | hxo | ⟨op', hop', hseq, hbf', hpnt', hnext⟩
        · rcases List.mem_append.mp hxp with h' | h'
          · exact Or.inl ⟨h', by rw [firstCountableSeq_cons_bf rest hb]; exact hfc⟩
          · have hxeq : x = op.oprSeq := by simpa using h'
            refine Or.inr (Or.inr ⟨op, List.mem_cons_self op rest, hxeq.symm, hb,
              by simpa using hp, ?_⟩)
            rw [nextCountableSeq_cons_bf rest x hb, hxeq,
              nextCountableSeq_eq_first rest op.oprSeq hlt]
            exact hfc
        · exact Or.inr (Or.inl hxo)
        · exact Or.inr (Or.inr ⟨op', List.mem_cons_of_mem op hop', hseq, hbf', hpnt',
            by rw [nextCountableSeq_cons_bf rest x hb]; exact hnext⟩)
    · have hb' : op.isBackflush = false := by simpa using hb
      rw [buildOwnership, if_neg hb] at hol
      rcases List.mem_cons.mp hol with heq | htail
      · rw [Prod.mk.injEq] at heq
        rw [heq.2] at hx
        rcases List.mem_append.mp hx with h' | h'
        · exact Or.inl ⟨h', by
            rw [firstCountableSeq_cons_countable rest hb', heq.1]⟩
        · refine Or.inr (Or.inl ?_)
          simp only [List.mem_singleton] at h'
          rw [heq.1]
          exact h'
      · rcases ih hrest htail with ⟨hxp, _⟩ | hxo | ⟨op', hop', hseq, hbf', hpnt', hnext⟩
        · cases hxp
        · exact Or.inr (Or.inl hxo)
        · refine Or.inr (Or.inr ⟨op', List.mem_cons_of_mem op hop', hseq, hbf', hpnt', ?_⟩)
          have hgt : op.oprSeq < x := hseq ▸ hlt op' hop'
          rw [nextCountableSeq_cons_ge rest x (by omega)]
          exact hnext

/-- No sequence is owned by two different entries of the ownership mapping. -/
theorem buildOwnership_count_le_one (ops : List WalkOp) (pending : List Int)
    (hs : ops.Pairwise fun a b => a.oprSeq < b.oprSeq)
    (hpend : ∀ p ∈ pending, ∀ op ∈ ops, p < op.oprSeq) (x : Int) :
    (buildOwnership ops pending).countP (fun e => decide (x ∈ e.2)) ≤ 1 := by
  induction ops generalizing pending with
  | nil => simp [buildOwnership]
  | cons op rest ih =>
    rw [List.pairwise_cons] at hs
    obtain ⟨hlt, hrest⟩ := hs
    unfold buildOwnership
    by_cases hb : op.isBackflush
    · rw [if_pos hb]
      by_cases hp : op.opCode == "PAINT"
      · rw [if_pos hp]
        exact ih pending hrest
          (fun p hpm op' hop' => hpend p hpm op' (List.mem_cons_of_mem op hop'))
      · rw [if_neg hp]
        refine ih _ hrest ?_
        intro p hpm op' hop'
        rcases List.mem_append.mp hpm with h | h
        · exact hpend p h op' (List.mem_cons_of_mem op hop')
        · have : p = op.oprSeq := by simpa using h
          rw [this]
          exact hlt op' hop'
    · rw [if_neg hb, List.countP_cons]
      by_cases hx : x ∈ pending ++ [op.oprSeq]
      · have htail0 :
            (buildOwnership rest []).countP (fun e => decide (x ∈ e.2)) = 0 := by
          rw [List.countP_eq_zero]
          intro e he
          simp only [decide_eq_true_eq]
          intro hxe
          rcases buildOwnership_mem_src he hxe with h0 | ⟨op', hop', hseq⟩
          · cases h0
          · have h1 : op.oprSeq < op'.oprSeq := hlt op' hop'
            have h2 : x ≤ op.oprSeq := by
              rcases List.mem_append.mp hx with h' | h'
              · exact le_of_lt (hpend x h' op (List.mem_cons_self op rest))
              · exact le_of_eq (by simpa using h')
            omega
        rw [htail0]
        simp [hx]
      · have hxd : (decide (x ∈ (op.oprSeq, pending ++ [op.oprSeq]).2)) = false := by
          simpa using hx
        rw [hxd]
        simpa using ih [] hrest (fun p hpm => absurd hpm (List.not_mem_nil p))

/-- Every countable operation owns itself in the ownership mapping. -/
theorem buildOwnership_self (ops : List WalkOp) (pending : List Int)
    {op : WalkOp} (hop : op ∈ ops) (hb : op.isBackflush = false) :
    ∃ l, (op.oprSeq, l) ∈ buildOwnership ops pending ∧ op.oprSeq ∈ l := by
  induction ops generalizing pending with
  | nil => cases hop
  | cons hd rest ih =>
    rcases List.mem_cons.mp hop with rfl | htl
    · refine ⟨pending ++ [op.oprSeq], ?_, ?_⟩
      · rw [buildOwnership, if_neg (by simp [hb])]
        exact List.mem_cons_self _ _
      · exact List.mem_append.mpr (Or.inr (List.mem_singleton.mpr rfl))
    · by_cases hbb : hd.isBackflush
      · rw [buildOwnership, if_pos hbb]
        by_cases hpp : hd.opCode == "PAINT"
        · rw [if_pos hpp]; exact ih pending htl
        · rw [if_neg hpp]; exact ih _ htl
      · rw [buildOwnership, if_neg hbb]
        obtain ⟨l, hl, hxl⟩ := ih [] htl
        exact ⟨l, List.mem_cons_of_mem _ hl, hxl⟩

/-- While the remaining list still has a countable operation, every sequence
already sitting in the pending accumulator ends up in the owned list of that
first countable operation. -/
theorem buildOwnership_pending_mem (ops : List WalkOp) :
    ∀ (pending : List Int) (o x : Int), firstCountableSeq ops = some o →
      x ∈ pending → ∃ l, (o, l) ∈ buildOwnership ops pending ∧ x ∈ l := by
  induction ops with
  | nil =>
    intro pending o x hfc hx
    simp [firstCountableSeq] at hfc
  | cons op rest ih =>
    intro pending o x hfc hx
    by_cases hb : op.isBackflush
    · rw [firstCountableSeq_cons_bf rest hb] at hfc
      rw [buildOwnership, if_pos hb]
      by_cases hp : op.opCode == "PAINT"
      · rw [if_pos hp]
        exact ih pending o x hfc hx
      · rw [if_neg hp]
        exact ih (pending ++ [op.oprSeq]) o x hfc
          (List.mem_append.mpr (Or.inl hx))
    · have hb' : op.isBackflush = false := by simpa using hb
      rw [firstCountableSeq_cons_countable rest hb'] at hfc
      have ho : o = op.oprSeq := (Option.some.inj hfc).symm
      rw [buildOwnership, if_neg hb]
      exact ⟨pending ++ [op.oprSeq],
        by rw [ho]; exact List.mem_cons_self _ _,
        List.mem_append.mpr (Or.inl hx)⟩

/-- The positive half of accumulation: over a sequence-sorted list, a
non-PAINT backflush operation that still has a next countable operation IS
accumulated and ends up in that operation's owned list. -/
theorem buildOwnership_backflush_owned (ops : List WalkOp) :
    ∀ (pending : List Int) (b : WalkOp) (o : Int),
      ops.Pairwise (fun a c => a.oprSeq < c.oprSeq) → b ∈ ops →
      b.isBackflush = true → b.opCode ≠ "PAINT" →
      nextCountableSeq ops b.oprSeq = some o →
      ∃ l, (o, l) ∈ buildOwnership ops pending ∧ b.oprSeq ∈ l := by
  induction ops with
  | nil =>
    intro pending b o _ hbm _ _ _
    cases hbm
  | cons op rest ih =>
    intro pending b o hs hbm hbf hpnt hnext
    obtain ⟨hlt, hrest⟩ := List.pairwise_cons.mp hs
    rcases List.mem_cons.mp hbm with rfl | hbr
    · -- the backflush op is the head: it joins the pending accumulator, and
      -- its next countable op is the first countable op of the tail
      have hp : ¬ (b.opCode == "PAINT") := by simpa using hpnt
      rw [buildOwnership, if_pos hbf, if_neg hp]
      rw [nextCountableSeq_cons_bf rest b.oprSeq hbf,
        nextCountableSeq_eq_first rest b.oprSeq hlt] at hnext
      exact buildOwnership_pending_mem rest (pending ++ [b.oprSeq]) o b.oprSeq
        hnext (List.mem_append.mpr (Or.inr (List.mem_singleton.mpr rfl)))
    · by_cases hob : op.isBackflush
      · rw [buildOwnership, if_pos hob]
        rw [nextCountableSeq_cons_bf rest b.oprSeq hob] at hnext
        by_cases hop : op.opCode == "PAINT"
        · rw [if_pos hop]
          exact ih pending b o hrest hbr hbf hpnt hnext
        · rw [if_neg hop]
          exact ih (pending ++ [op.oprSeq]) b o hrest hbr hbf hpnt hnext
      · rw [buildOwnership, if_neg hob]
        have hgt : op.oprSeq < b.oprSeq := hlt b hbr
        rw [nextCountableSeq_cons_ge rest b.oprSeq (by omega)] at hnext
        obtain ⟨l, hl, hxl⟩ := ih [] b o hrest hbr hbf hpnt hnext
        exact ⟨l, List.mem_cons_of_mem _ hl, hxl⟩

/-- Sequence numbers identify operations in a strictly sorted list. -/
theorem pairwise_seq_inj {ops : List WalkOp}
    (hs : ops.Pairwise fun a b => a.oprSeq < b.oprSeq)
    {a b : WalkOp} (ha : a ∈ ops) (hb : b ∈ ops) (hab : a.oprSeq = b.oprSeq) :
    a = b := by
  induction ops with
  | nil => cases ha
  | cons hd rest ih =>
    rw [List.pairwise_cons] at hs
    rcases List.mem_cons.mp ha with rfl | ha' <;> rcases List.mem_cons.mp hb with rfl | hb'
    · rfl
    · exact absurd hab (ne_of_lt (hs.1 b hb'))
    · exact absurd hab.symm (ne_of_lt (hs.1 a ha'))
    · exact ih hs.2 ha' hb'

/-- C3: over a (job, assembly) operation list walked in sequence order, the
ownership walk of `get_bulk_materials` (1) lets every countable operation own
itself, (2) makes every non-PAINT backflush operation that is followed by a
countable operation owned by that (its next countable) operation, so a
countable operation owns itself plus the accumulated pending backflush
operations, (3) assigns every sequence to at most one owner, (4) assigns an
owned backflush operation precisely to the next countable operation of the
sequence, (5) never accumulates a PAINT backflush operation, and (6) gives
backflush operations after the last countable operation no owner at all. -/
theorem ownership_mapping_correct (ops : List WalkOp)
    (hs : ops.Pairwise fun a b => a.oprSeq < b.oprSeq) :
    (∀ op ∈ ops, op.isBackflush = false →
        ∃ l, (op.oprSeq, l) ∈ buildOwnership ops [] ∧ op.oprSeq ∈ l) ∧
    (∀ b ∈ ops, b.isBackflush = true → b.opCode ≠ "PAINT" →
        ∀ o : Int, nextCountableSeq ops b.oprSeq = some o →
        ∃ l, (o, l) ∈ buildOwnership ops [] ∧ b.oprSeq ∈ l) ∧
    (∀ x : Int, (buildOwnership ops []).countP (fun e => decide (x ∈ e.2)) ≤ 1) ∧
    (∀ b ∈ ops, b.isBackflush = true → ∀ o l, (o, l) ∈ buildOwnership ops [] →
        b.oprSeq ∈ l → nextCountableSeq ops b.oprSeq = some o) ∧
    (∀ b ∈ ops, b.isBackflush = true → b.opCode = "PAINT" →
        ∀ o l, (o, l) ∈ buildOwnership ops [] → b.oprSeq ∉ l) ∧
    (∀ b ∈ ops, b.isBackflush = true → nextCountableSeq ops b.oprSeq = none →
        ∀ o l, (o, l) ∈ buildOwnership ops [] → b.oprSeq ∉ l) := by
  have howner : ∀ {o : Int} {l : List Int}, (o, l) ∈ buildOwnership ops [] →
      ∃ c ∈ ops, c.isBackflush = false ∧ c.oprSeq = o := by
    intro o l holm
    have hmm : o ∈ (buildOwnership ops []).map Prod.fst :=
      List.mem_map.mpr ⟨(o, l), holm, rfl⟩
    rw [buildOwnership_keys] at hmm
    rw [List.mem_map] at hmm
    obtain ⟨c, hc, hceq⟩ := hmm
    obtain ⟨hcmem, hcp⟩ := List.mem_filter.mp hc
    exact ⟨c, hcmem, by simpa using hcp, hceq⟩
  refine ⟨fun op hop hbf => buildOwnership_self ops [] hop hbf,
    fun b hbm hbf hpnt o hnext =>
      buildOwnership_backflush_owned ops [] b o hs hbm hbf hpnt hnext,
    fun x => buildOwnership_count_le_one ops [] hs
      (fun p hpm => absurd hpm (List.not_mem_nil p)) x, ?_, ?_, ?_⟩
  · intro b hbm hbf o l hol hxl
    rcases buildOwnership_mem_char hs hol hxl with ⟨h0, _⟩ | hxo | ⟨op', hop', hseq, _, _, hnext⟩
    · cases h0
    · obtain ⟨c, hc, hcbf, hco⟩ := howner hol
      have : c = b := pairwise_seq_inj hs hc hbm (by rw [hco, ← hxo])
      rw [this, hbf] at hcbf
      cases hcbf
    · exact hnext
  · intro b hbm hbf hpaint o l hol hxl
    rcases buildOwnership_mem_char hs hol hxl with ⟨h0, _⟩ | hxo | ⟨op', hop', hseq, _, hpnt', _⟩
    · cases h0
    · obtain ⟨c, hc, hcbf, hco⟩ := howner hol
      have : c = b := pairwise_seq_inj hs hc hbm (by rw [hco, ← hxo])
      rw [this, hbf] at hcbf
      cases hcbf
    · have : op' = b := pairwise_seq_inj hs hop' hbm hseq
      rw [this] at hpnt'
      exact hpnt' hpaint
  · intro b hbm hbf hnone o l hol hxl
    rcases buildOwnership_mem_char hs hol hxl with ⟨h0, _⟩ | hxo | ⟨op', hop', hseq, _, _, hnext⟩
    · cases h0
    · obtain ⟨c, hc, hcbf, hco⟩ := howner hol
      have : c = b := pairwise_seq_inj hs hc hbm (by rw [hco, ← hxo])
      rw [this, hbf] at hcbf
      cases hcbf
    · rw [hnone] at hnext
      cases hnext

/-- Witness for `ownership_mapping_correct`: in a group with a non-PAINT
backflush op 5, a PAINT backflush op 7, a countable op 10 and a trailing
backflush op 20, the countable operation 10 owns itself and the accumulated
backflush operation 5. -/
theorem ownership_mapping_correct_witness :
    (∃ l, ((10 : Int), l) ∈
        buildOwnership [⟨5, "B", "CLEAN"⟩, ⟨7, "B", "PAINT"⟩,
          ⟨10, "Q", "MILL"⟩, ⟨20, "B", "DEBURR"⟩] [] ∧ (10 : Int) ∈ l) ∧
    (∃ l, ((10 : Int), l) ∈
        buildOwnership [⟨5, "B", "CLEAN"⟩, ⟨7, "B", "PAINT"⟩,
          ⟨10, "Q", "MILL"⟩, ⟨20, "B", "DEBURR"⟩] [] ∧ (5 : Int) ∈ l) :=
  ⟨(ownership_mapping_correct
      [⟨5, "B", "CLEAN"⟩, ⟨7, "B", "PAINT"⟩, ⟨10, "Q", "MILL"⟩, ⟨20, "B", "DEBURR"⟩]
      (by decide)).1 ⟨10, "Q", "MILL"⟩ (by decide) (by decide),
    (ownership_mapping_correct
      [⟨5, "B", "CLEAN"⟩, ⟨7, "B", "PAINT"⟩, ⟨10, "Q", "MILL"⟩, ⟨20, "B", "DEBURR"⟩]
      (by decide)).2.1 ⟨5, "B", "CLEAN"⟩ (by decide) (by decide) (by decide)
      10 (by decide)⟩

/-- A `JobHead` row (single company). -/
structure JobHead where
  jobNum : String
  jobComplete : Bool
  jobReleased : Bool
  partNum : String
  prodQty : ℚ
  startDate : Int
deriving DecidableEq, Repr

/-- A `JobOper` row (single company). -/
structure JobOper where
  jobNum : String
  assemblySeq : Int
  oprSeq : Int
  opCode : String
  opComplete : Bool
  qtyCompleted : ℚ
  laborEntryMethod : String
  schedRelation : String
deriving DecidableEq, Repr

/-- A `JobAsmbl` row (single company). -/
structure JobAsmbl where
  jobNum : String
  assemblySeq : Int
  partNum : String
  requiredQty : ℚ
deriving DecidableEq, Repr

/-- A `JobMtl` row (single company). -/
structure JobMtl where
  jobNum : String
  assemblySeq : Int
  relatedOperation : Int
  partNum : String
  requiredQty : ℚ
deriving DecidableEq, Repr

/-- A `PartQty` row (single company, one row per warehouse/bin). -/
structure PartQtyRow where
  partNum : String
  onHandQty : ℚ
  demandQty : ℚ
deriving DecidableEq, Repr

/-- The read-only relational snapshot the readiness query runs against. -/
structure Db where
  jobHeads : List JobHead
  jobOpers : List JobOper
  jobAsmbls : List JobAsmbl
  jobMtls : List JobMtl
  partQtys : List PartQtyRow
deriving DecidableEq, Repr

/-- `LaborEntryMethod != 'B'`: a countable (quantity-reported) operation. -/
def JobOper.isCountable (jo : JobOper) : Bool := jo.laborEntryMethod != "B"

/-- Prior countable operations of the same (job, assembly), sequence below
the given operation — the scope of the `PriorOpQty` subqueries. -/
def priorCountables (db : Db) (jo : JobOper) : List JobOper :=
  db.jobOpers.filter fun p =>
    p.jobNum == jo.jobNum && p.assemblySeq == jo.assemblySeq &&
      decide (p.oprSeq < jo.oprSeq) && p.isCountable

/-- `QtyFromPrior` of the `PriorOpQty` CTE: quantity completed of the prior
countable operation with the highest sequence, defaulting to 0
(`ISNULL(SELECT TOP 1 ... ORDER BY OprSeq DESC, 0)`). -/
def qtyFromPrior (db : Db) (jo : JobOper) : ℚ :=
  match (priorCountables db jo).argmax JobOper.oprSeq with
  | none => 0
  | some p => p.qtyCompleted

/-- `IsFirstOp` of the `PriorOpQty` CTE: no prior countable operation exists
on the same (job, assembly). -/
def isFirstOp (db : Db) (jo : JobOper) : Bool := (priorCountables db jo).isEmpty

/-- The last countable operation of a (job, assembly) group
(`MAX(OprSeq)` over `LaborEntryMethod != 'B'` in the `SubAsmComplete` CTE). -/
def lastCountable (db : Db) (job : String) (asm : Int) : Option JobOper :=
  (db.jobOpers.filter fun p =>
      p.jobNum == job && p.assemblySeq == asm && p.isCountable).argmax
    JobOper.oprSeq

/-- The `NOT EXISTS` witness of the `SubAsmComplete` CTE: some operation row
of a sub-assembly (assembly index > 0) sits at its group's last countable
sequence and has `QtyCompleted = 0`. -/
def subAsmNotReady (db : Db) (job : String) : Bool :=
  db.jobOpers.any fun r =>
    r.jobNum == job && decide (0 < r.assemblySeq) &&
      decide (r.qtyCompleted = 0) &&
      decide ((lastCountable db job r.assemblySeq).map JobOper.oprSeq
        = some r.oprSeq)

/-- The `WHERE` clause of the main query of `get_jobs_for_workcell`
(queries.py), including the join condition `jh.JobNum = jo.JobNum`: released
incomplete job; op code in the work cell's set; incomplete countable
operation; rule 3 (first op, prior quantity, or an `SS`/`FF` scheduling
relation); rule 4 (top-level assembly only when all sub-assemblies are
ready). -/
def eligibleOp (db : Db) (wops : List String) (jh : JobHead) (jo : JobOper) : Bool :=
  jo.jobNum == jh.jobNum &&
  !jh.jobComplete && jh.jobReleased &&
  wops.contains jo.opCode &&
  !jo.opComplete && jo.isCountable &&
  (isFirstOp db jo || decide (0 < qtyFromPrior db jo) ||
    (jo.schedRelation == "SS" || jo.schedRelation == "FF")) &&
  (decide (0 < jo.assemblySeq) || !subAsmNotReady db jo.jobNum)

/-- `OwnerOprSeq` of the `OpOwnership` CTE: a countable operation owns
itself; a backflush operation is owned by the next countable operation of
its (job, assembly), when one exists. -/
def ownerOprSeq (db : Db) (oo : JobOper) : Option Int :=
  if oo.isCountable then some oo.oprSeq
  else
    ((db.jobOpers.filter fun n =>
        n.jobNum == oo.jobNum && n.assemblySeq == oo.assemblySeq &&
          decide (oo.oprSeq < n.oprSeq) && n.isCountable).argmin
      JobOper.oprSeq).map JobOper.oprSeq

/-- Inventory aggregation `SUM(OnHandQty), SUM(DemandQty) GROUP BY PartNum`:
present exactly when the part has at least one `PartQty` row. -/
def invAgg (db : Db) (part : String) : Option (ℚ × ℚ) :=
  let rows := db.partQtys.filter fun r => r.partNum == part
  if rows.isEmpty then none
  else some (rows.foldl (fun a r => a + r.onHandQty) 0,
    rows.foldl (fun a r => a + r.demandQty) 0)

/-- The materials the `MaterialAgg` CTE attributes to owner operation
`(job, asm, ownerSeq)`: positive-requirement materials joined (possibly more
than once) to the operation rows they are related to, excluding PAINT source
operations, keyed by the owner sequence. -/
def materialAggMats (db : Db) (job : String) (asm : Int) (ownerSeq : Int) :
    List MatData :=
  db.jobMtls.flatMap fun jm =>
    if jm.jobNum == job && jm.assemblySeq == asm && decide (0 < jm.requiredQty)
    then
      (db.jobOpers.filter fun oo =>
          oo.jobNum == jm.jobNum && oo.assemblySeq == jm.assemblySeq &&
            oo.oprSeq == jm.relatedOperation && oo.opCode != "PAINT" &&
            decide (ownerOprSeq db oo = some ownerSeq)).map
        fun _ => { requiredQty := jm.requiredQty, inv := invAgg db jm.partNum }
    else []

/-- One result row of `get_jobs_for_workcell` (the claim-relevant columns). -/
structure QueueRow where
  jobNum : String
  partNum : Option String
  prodQty : Option ℚ
  oprSeq : Int
  opCode : String
  assemblySeq : Int
  qtyCompletedThisOp : ℚ
  qtyLeft : ℚ
  qtyFromPrior : ℚ
  isFirstOp : Bool
  startDate : Int
  mtlStatus : String
deriving DecidableEq, Repr

/-- The `SELECT` list of `get_jobs_for_workcell` for one joined
(`JobHead`, `JobOper`) pair: effective part and quantity switch to the
`JobAsmbl` row for sub-assemblies, `QtyLeft` is `jh.ProdQty - jo.QtyCompleted`,
and `MtlStatus` comes from the `MaterialAgg` aggregation. -/
def mkRow (db : Db) (jh : JobHead) (jo : JobOper) : QueueRow :=
  let ja := db.jobAsmbls.find? fun a =>
    a.jobNum == jo.jobNum && a.assemblySeq == jo.assemblySeq
  { jobNum := jh.jobNum
    partNum := if 0 < jo.assemblySeq then ja.map JobAsmbl.partNum
               else some jh.partNum
    prodQty := if 0 < jo.assemblySeq then ja.map JobAsmbl.requiredQty
               else some jh.prodQty
    oprSeq := jo.oprSeq
    opCode := jo.opCode
    assemblySeq := jo.assemblySeq
    qtyCompletedThisOp := jo.qtyCompleted
    qtyLeft := jh.prodQty - jo.qtyCompleted
    qtyFromPrior := qtyFromPrior db jo
    isFirstOp := isFirstOp db jo
    startDate := jh.startDate
    mtlStatus := mtlStatusAgg (materialAggMats db jo.jobNum jo.assemblySeq jo.oprSeq) }

/-- The `ORDER BY` comparator of `get_jobs_for_workcell`: job start date,
then job number, then assembly, then operation sequence, all ascending. -/
def rowLE (a b : QueueRow) : Bool :=
  if a.startDate != b.startDate then decide (a.startDate < b.startDate)
  else if a.jobNum != b.jobNum then decide (a.jobNum < b.jobNum)
  else if a.assemblySeq != b.assemblySeq then decide (a.assemblySeq < b.assemblySeq)
  else decide (a.oprSeq ≤ b.oprSeq)

/-- `get_jobs_for_workcell` (queries.py): empty op-code set (unknown work
cell) yields an empty result; otherwise every eligible (`JobHead`, `JobOper`)
pair becomes a result row, ordered by the `ORDER BY` comparator. -/
def get_jobs_for_workcell (db : Db) (wops : List String) : List QueueRow :=
  if wops.isEmpty then []
  else
    (db.jobHeads.flatMap fun jh =>
      (db.jobOpers.filter (eligibleOp db wops jh)).map (mkRow db jh)).mergeSort
      rowLE

/-- Result-row membership comes from an eligible (`JobHead`, `JobOper`)
pair. -/
theorem mem_get_jobs_for_workcell {db : Db} {wops : List String}
    {row : QueueRow} (hrow : row ∈ get_jobs_for_workcell db wops) :
    ∃ jh ∈ db.jobHeads, ∃ jo ∈ db.jobOpers,
      eligibleOp db wops jh jo = true ∧ row = mkRow db jh jo := by
  unfold get_jobs_for_workcell at hrow
  by_cases hw : wops.isEmpty
  · rw [if_pos hw] at hrow
    cases hrow
  · rw [if_neg hw, List.mem_mergeSort, List.mem_flatMap] at hrow
    obtain ⟨jh, hjh, hrow⟩ := hrow
    rw [List.mem_map] at hrow
    obtain ⟨jo, hjo, hrow⟩ := hrow
    exact ⟨jh, hjh, jo, List.mem_of_mem_filter hjo,
      List.of_mem_filter hjo, hrow.symm⟩

theorem mkRow_jobNum (db : Db) (jh : JobHead) (jo : JobOper) :
    (mkRow db jh jo).jobNum = jh.jobNum := rfl

theorem mkRow_assemblySeq (db : Db) (jh : JobHead) (jo : JobOper) :
    (mkRow db jh jo).assemblySeq = jo.assemblySeq := rfl

theorem mkRow_oprSeq (db : Db) (jh : JobHead) (jo : JobOper) :
    (mkRow db jh jo).oprSeq = jo.oprSeq := rfl

theorem mkRow_qtyCompletedThisOp (db : Db) (jh : JobHead) (jo : JobOper) :
    (mkRow db jh jo).qtyCompletedThisOp = jo.qtyCompleted := rfl

theorem mkRow_qtyLeft (db : Db) (jh : JobHead) (jo : JobOper) :
    (mkRow db jh jo).qtyLeft = jh.prodQty - jo.qtyCompleted := rfl

theorem mkRow_prodQty (db : Db) (jh : JobHead) (jo : JobOper) :
    (mkRow db jh jo).prodQty =
      if 0 < jo.assemblySeq then
        (db.jobAsmbls.find? fun a =>
          a.jobNum == jo.jobNum && a.assemblySeq == jo.assemblySeq).map
          JobAsmbl.requiredQty
      else some jh.prodQty := rfl

/-- C7: a queue row that has an immediately preceding countable operation
with `QtyCompleted = 0` (so it is not the first countable operation of its
(job, assembly) and rule 3b fails) can only come from an operation carrying
one of the two recognized override scheduling relations `SS` or `FF`.
Sequence keys are assumed unique per (job, assembly), the `JobOper` primary
key. -/
theorem queue_prior_op_gate (db : Db) (wops : List String) (row : QueueRow)
    (hkeys : ∀ a ∈ db.jobOpers, ∀ b ∈ db.jobOpers,
      a.jobNum = b.jobNum → a.assemblySeq = b.assemblySeq →
      a.oprSeq = b.oprSeq → a = b)
    (hrow : row ∈ get_jobs_for_workcell db wops)
    (p : JobOper) (hp : p ∈ db.jobOpers)
    (hpj : p.jobNum = row.jobNum) (hpa : p.assemblySeq = row.assemblySeq)
    (hpc : p.isCountable = true) (hps : p.oprSeq < row.oprSeq)
    (hmax : ∀ q ∈ db.jobOpers, q.jobNum = row.jobNum →
      q.assemblySeq = row.assemblySeq → q.isCountable = true →
      q.oprSeq < row.oprSeq → q.oprSeq ≤ p.oprSeq)
    (hq : p.qtyCompleted = 0) :
    ∃ jo ∈ db.jobOpers, jo.jobNum = row.jobNum ∧
      jo.assemblySeq = row.assemblySeq ∧ jo.oprSeq = row.oprSeq ∧
      (jo.schedRelation = "SS" ∨ jo.schedRelation = "FF") := by
  obtain ⟨jh, hjh, jo, hjo, helig, hrw⟩ := mem_get_jobs_for_workcell hrow
  subst hrw
  simp only [mkRow_jobNum, mkRow_assemblySeq, mkRow_oprSeq] at hpj hpa hps hmax ⊢
  simp only [eligibleOp, Bool.and_eq_true] at helig
  obtain ⟨⟨⟨⟨⟨⟨⟨hjoin, _⟩, _⟩, _⟩, _⟩, _⟩, hr3⟩, _⟩ := helig
  have hjoin' : jo.jobNum = jh.jobNum := by simpa using hjoin
  have hmem_pc : p ∈ priorCountables db jo := by
    refine List.mem_filter.mpr ⟨hp, ?_⟩
    simp [hpj, hpa, hps, hpc, hjoin']
  have hne : priorCountables db jo ≠ [] := List.ne_nil_of_mem hmem_pc
  have hfo : isFirstOp db jo = false := by
    unfold isFirstOp
    rw [Bool.eq_false_iff]
    intro h
    rw [List.isEmpty_iff] at h
    exact hne h
  rcases hm : (priorCountables db jo).argmax JobOper.oprSeq with _ | m
  · rw [List.argmax_eq_none] at hm
    exact absurd hm hne
  · have hmmem := List.argmax_mem hm
    have hmle : p.oprSeq ≤ m.oprSeq := List.le_of_mem_argmax hmem_pc hm
    have hmdb := List.mem_of_mem_filter hmmem
    have hmpred := List.of_mem_filter hmmem
    simp only [Bool.and_eq_true, beq_iff_eq, decide_eq_true_eq] at hmpred
    obtain ⟨⟨⟨hmj, hma⟩, hmo⟩, hmc⟩ := hmpred
    have hmle2 : m.oprSeq ≤ p.oprSeq :=
      hmax m hmdb (by rw [hmj, hjoin']) (by rw [hma]) hmc hmo
    have hmp : m = p := by
      refine hkeys m hmdb p hp ?_ ?_ (le_antisymm hmle2 hmle)
      · rw [hmj, hjoin', hpj]
      · rw [hma, hpa]
    have hqf : qtyFromPrior db jo = 0 := by
      unfold qtyFromPrior
      rw [hm, hmp]
      exact hq
    rw [hfo, hqf] at hr3
    simp only [Bool.false_or, Bool.or_eq_true, beq_iff_eq, decide_eq_true_eq,
      lt_self_iff_false, false_or] at hr3
    exact ⟨jo, hjo, hjoin', rfl, rfl, hr3⟩

/-- C8: a top-level (assembly 0) queue row can only exist when every
sub-assembly's last countable operation of the same job has a positive
completed quantity (rule 4 of the readiness predicate); completed quantities
are nonnegative in the snapshot. -/
theorem queue_subassembly_gate (db : Db) (wops : List String) (row : QueueRow)
    (hqty : ∀ q ∈ db.jobOpers, 0 ≤ q.qtyCompleted)
    (hrow : row ∈ get_jobs_for_workcell db wops)
    (hasm : row.assemblySeq = 0)
    (l : JobOper) (hl : l ∈ db.jobOpers) (hlj : l.jobNum = row.jobNum)
    (hla : 0 < l.assemblySeq) (hlc : l.isCountable = true)
    (hlast : ∀ q ∈ db.jobOpers, q.jobNum = row.jobNum →
      q.assemblySeq = l.assemblySeq → q.isCountable = true →
      q.oprSeq ≤ l.oprSeq) :
    0 < l.qtyCompleted := by
  obtain ⟨jh, hjh, jo, hjo, helig, hrw⟩ := mem_get_jobs_for_workcell hrow
  subst hrw
  simp only [mkRow_jobNum, mkRow_assemblySeq] at hasm hlj hlast
  simp only [eligibleOp, Bool.and_eq_true] at helig
  obtain ⟨⟨⟨⟨⟨⟨⟨hjoin, _⟩, _⟩, _⟩, _⟩, _⟩, _⟩, hr4⟩ := helig
  have hjoin' : jo.jobNum = jh.jobNum := by simpa using hjoin
  rcases lt_or_eq_of_le (hqty l hl) with h | h
  · exact h
  exfalso
  -- with `QtyCompleted = 0`, `l` witnesses `subAsmNotReady` for this job
  have hmem_lc : l ∈ db.jobOpers.filter fun p =>
      p.jobNum == jo.jobNum && p.assemblySeq == l.assemblySeq &&
        p.isCountable := by
    refine List.mem_filter.mpr ⟨hl, ?_⟩
    simp [hlj, hjoin', hlc]
  have hne : db.jobOpers.filter (fun p =>
      p.jobNum == jo.jobNum && p.assemblySeq == l.assemblySeq &&
        p.isCountable) ≠ [] := List.ne_nil_of_mem hmem_lc
  have hlcseq : (lastCountable db jo.jobNum l.assemblySeq).map JobOper.oprSeq
      = some l.oprSeq := by
    unfold lastCountable
    rcases hm : (db.jobOpers.filter fun p =>
        p.jobNum == jo.jobNum && p.assemblySeq == l.assemblySeq &&
          p.isCountable).argmax JobOper.oprSeq with _ | m
    · rw [List.argmax_eq_none] at hm
      exact absurd hm hne
    · have hmle : l.oprSeq ≤ m.oprSeq := List.le_of_mem_argmax hmem_lc hm
      have hmdb := List.mem_of_mem_filter (List.argmax_mem hm)
      have hmpred := List.of_mem_filter (List.argmax_mem hm)
      simp only [Bool.and_eq_true, beq_iff_eq] at hmpred
      obtain ⟨⟨hmj, hma⟩, hmc⟩ := hmpred
      have hmle2 : m.oprSeq ≤ l.oprSeq :=
        hlast m hmdb (by rw [hmj, hjoin']) hma hmc
      rw [hm, Option.map_some']
      exact congrArg some (le_antisymm hmle2 hmle)
  have hwitness : subAsmNotReady db jo.jobNum = true := by
    unfold subAsmNotReady
    rw [List.any_eq_true]
    refine ⟨l, hl, ?_⟩
    simp only [Bool.and_eq_true, beq_iff_eq, decide_eq_true_eq]
    exact ⟨⟨⟨by rw [hlj, hjoin'], hla⟩, h.symm⟩, hlcseq⟩
  rw [hasm, hwitness] at hr4
  simp at hr4

/-- C10: every queue row's `QtyLeft` is the job header production quantity
minus the operation's completed quantity — also for sub-assembly rows, whose
reported effective quantity (`ProdQty`) is the sub-assembly's own
`RequiredQty` from `JobAsmbl`. -/
theorem queue_qtyleft_from_job_head (db : Db) (wops : List String)
    (row : QueueRow) (hrow : row ∈ get_jobs_for_workcell db wops) :
    (∃ jh ∈ db.jobHeads, jh.jobNum = row.jobNum ∧
      row.qtyLeft = jh.prodQty - row.qtyCompletedThisOp) ∧
    (0 < row.assemblySeq → ∀ ja ∈ db.jobAsmbls,
      (∀ b ∈ db.jobAsmbls, b.jobNum = ja.jobNum →
        b.assemblySeq = ja.assemblySeq → b = ja) →
      ja.jobNum = row.jobNum → ja.assemblySeq = row.assemblySeq →
      row.prodQty = some ja.requiredQty) := by
  obtain ⟨jh, hjh, jo, hjo, helig, hrw⟩ := mem_get_jobs_for_workcell hrow
  subst hrw
  simp only [eligibleOp, Bool.and_eq_true] at helig
  obtain ⟨⟨⟨⟨⟨⟨⟨hjoin, _⟩, _⟩, _⟩, _⟩, _⟩, _⟩, _⟩ := helig
  have hjoin' : jo.jobNum = jh.jobNum := by simpa using hjoin
  constructor
  · exact ⟨jh, hjh, (mkRow_jobNum db jh jo).symm, by
      rw [mkRow_qtyLeft, mkRow_qtyCompletedThisOp]⟩
  · intro hpos ja hja huniq hjaj hjaa
    rw [mkRow_assemblySeq] at hpos hjaa
    rw [mkRow_jobNum] at hjaj
    rw [mkRow_prodQty, if_pos hpos]
    rcases hf : db.jobAsmbls.find? (fun a =>
        a.jobNum == jo.jobNum && a.assemblySeq == jo.assemblySeq) with _ | x
    · rw [List.find?_eq_none] at hf
      exact absurd (by simp [hjaj, hjoin', hjaa] :
        ((fun a => a.jobNum == jo.jobNum && a.assemblySeq == jo.assemblySeq) ja)
          = true) (hf ja hja)
    · have hx := List.find?_some hf
      have hxmem := List.mem_of_find?_eq_some hf
      simp only [Bool.and_eq_true, beq_iff_eq] at hx
      have hxa : x = ja := by
        refine huniq x hxmem ?_ ?_
        · rw [hx.1, hjoin', hjaj]
        · rw [hx.2, hjaa]
      rw [hf, Option.map_some', hxa]

/-- Witness snapshot: one job with two countable top-level operations; the
second (sequence 20) has a prior operation with `QtyCompleted = 0` but an
`SS` scheduling relation. -/
def queueDb0 : Db :=
  ⟨[⟨"J1", false, true, "P1", 10, 100⟩],
   [⟨"J1", 0, 10, "TURN", false, 0, "Q", ""⟩,
    ⟨"J1", 0, 20, "MILL", false, 0, "Q", "SS"⟩],
   [], [], []⟩

/-- Witness for `queue_prior_op_gate`: in `queueDb0` the queue row for
operation 20 (whose predecessor, operation 10, has completed quantity 0)
carries the `SS` override. -/
theorem queue_prior_op_gate_witness :
    ∃ jo ∈ queueDb0.jobOpers,
      jo.jobNum = (mkRow queueDb0 ⟨"J1", false, true, "P1", 10, 100⟩
        ⟨"J1", 0, 20, "MILL", false, 0, "Q", "SS"⟩).jobNum ∧
      jo.assemblySeq = (mkRow queueDb0 ⟨"J1", false, true, "P1", 10, 100⟩
        ⟨"J1", 0, 20, "MILL", false, 0, "Q", "SS"⟩).assemblySeq ∧
      jo.oprSeq = (mkRow queueDb0 ⟨"J1", false, true, "P1", 10, 100⟩
        ⟨"J1", 0, 20, "MILL", false, 0, "Q", "SS"⟩).oprSeq ∧
      (jo.schedRelation = "SS" ∨ jo.schedRelation = "FF") :=
  queue_prior_op_gate queueDb0 ["MILL"]
    (mkRow queueDb0 ⟨"J1", false, true, "P1", 10, 100⟩
      ⟨"J1", 0, 20, "MILL", false, 0, "Q", "SS"⟩)
    (by decide)
    (by
      unfold get_jobs_for_workcell
      rw [if_neg (by decide), List.mem_mergeSort]
      exact List.mem_flatMap.mpr ⟨⟨"J1", false, true, "P1", 10, 100⟩, by decide,
        List.mem_map.mpr
          ⟨⟨"J1", 0, 20, "MILL", false, 0, "Q", "SS"⟩, by decide, rfl⟩⟩)
    ⟨"J1", 0, 10, "TURN", false, 0, "Q", ""⟩
    (by decide) (by decide) (by decide) (by decide) (by decide)
    (by decide) (by decide)

/-- Witness snapshot: one job with a sub-assembly operation (assembly 1,
quantity 2 completed) and a top-level operation, both in the work cell. -/
def queueDb1 : Db :=
  ⟨[⟨"J2", false, true, "P2", 8, 50⟩],
   [⟨"J2", 1, 10, "MILL", false, 2, "Q", ""⟩,
    ⟨"J2", 0, 10, "MILL", false, 0, "Q", ""⟩],
   [⟨"J2", 1, "SUB", 16⟩], [], []⟩

/-- Witness for `queue_subassembly_gate`: the top-level queue row of `queueDb1`
forces the sub-assembly's last countable operation to have a positive
completed quantity. -/
theorem queue_subassembly_gate_witness :
    0 < (⟨"J2", 1, 10, "MILL", false, 2, "Q", ""⟩ : JobOper).qtyCompleted :=
  queue_subassembly_gate queueDb1 ["MILL"]
    (mkRow queueDb1 ⟨"J2", false, true, "P2", 8, 50⟩
      ⟨"J2", 0, 10, "MILL", false, 0, "Q", ""⟩)
    (by decide)
    (by
      unfold get_jobs_for_workcell
      rw [if_neg (by decide), List.mem_mergeSort]
      exact List.mem_flatMap.mpr ⟨⟨"J2", false, true, "P2", 8, 50⟩, by decide,
        List.mem_map.mpr
          ⟨⟨"J2", 0, 10, "MILL", false, 0, "Q", ""⟩, by decide, rfl⟩⟩)
    (by decide)
    ⟨"J2", 1, 10, "MILL", false, 2, "Q", ""⟩
    (by decide) (by decide) (by decide) (by decide) (by decide)

/-- Witness for `queue_qtyleft_from_job_head`: the sub-assembly queue row of
`queueDb1` reports `ProdQty = 16` (the sub-assembly requirement) while its
`QtyLeft` is computed from the job header quantity 8. -/
theorem queue_qtyleft_from_job_head_witness :
    (∃ jh ∈ queueDb1.jobHeads,
      jh.jobNum = (mkRow queueDb1 ⟨"J2", false, true, "P2", 8, 50⟩
        ⟨"J2", 1, 10, "MILL", false, 2, "Q", ""⟩).jobNum ∧
      (mkRow queueDb1 ⟨"J2", false, true, "P2", 8, 50⟩
        ⟨"J2", 1, 10, "MILL", false, 2, "Q", ""⟩).qtyLeft =
        jh.prodQty - (mkRow queueDb1 ⟨"J2", false, true, "P2", 8, 50⟩
          ⟨"J2", 1, 10, "MILL", false, 2, "Q", ""⟩).qtyCompletedThisOp) ∧
    (mkRow queueDb1 ⟨"J2", false, true, "P2", 8, 50⟩
      ⟨"J2", 1, 10, "MILL", false, 2, "Q", ""⟩).prodQty = some 16 := by
  have h := queue_qtyleft_from_job_head queueDb1 ["MILL"]
    (mkRow queueDb1 ⟨"J2", false, true, "P2", 8, 50⟩
      ⟨"J2", 1, 10, "MILL", false, 2, "Q", ""⟩)
    (by
      unfold get_jobs_for_workcell
      rw [if_neg (by decide), List.mem_mergeSort]
      exact List.mem_flatMap.mpr ⟨⟨"J2", false, true, "P2", 8, 50⟩, by decide,
        List.mem_map.mpr
          ⟨⟨"J2", 1, 10, "MILL", false, 2, "Q", ""⟩, by decide, rfl⟩⟩)
  refine ⟨h.1, ?_⟩
  rw [h.2 (by decide) ⟨"J2", 1, "SUB", 16⟩ (by decide) (by decide) (by decide)
    (by decide)]

/-- A `JobOper` production-standard row as read by `calculate_labor_hours`
(epicor_api.py): `ProdStandard` and `StdFormat`, either possibly NULL. -/
structure JobOperStd where
  jobNum : String
  assemblySeq : Int
  oprSeq : Int
  prodStandard : Option ℚ
  stdFormat : Option String
deriving DecidableEq, Repr

/-- `calculate_labor_hours` (epicor_api.py): look up the operation's
production standard; no row yields `None`; a zero standard yields 0.0 for any
format; `HP`/`MP`/`PH`/`PM`/`HR` apply the respective formula; any other tag
yields `None`.  A NULL standard reads as 0 (`float(... or 0)`), a NULL format
as the empty string; the source also normalizes the tag with
`.strip().upper()`, which the model takes as already applied (the tags are
stored canonically). -/
def calculate_labor_hours (db : List JobOperStd) (jobNum : String)
    (asmSeq oprSeq : Int) (totalQty : ℚ) : Option ℚ :=
  match db.filter fun row => row.jobNum == jobNum && row.assemblySeq == asmSeq
      && row.oprSeq == oprSeq with
  | [] => none
  | row :: _ =>
    let prodStd := row.prodStandard.getD 0
    let stdFormat := row.stdFormat.getD ""
    if prodStd = 0 then some 0
    else if stdFormat = "HP" then some (totalQty * prodStd)
    else if stdFormat = "MP" then some (totalQty * prodStd / 60)
    else if stdFormat = "PH" then some (totalQty / prodStd)
    else if stdFormat = "PM" then some (totalQty / prodStd / 60)
    else if stdFormat = "HR" then some prodStd
    else none

/-- A `LaborDtl` record of the remote labor dataset, with the fields
`end_activity` reads or writes. -/
structure LaborDtl where
  laborDtlSeq : Int
  jobNum : String
  assemblySeq : Int
  oprSeq : Int
  laborQty : ℚ
  scrapQty : ℚ
  scrapReasonCode : String
  opComplete : Bool
  laborHrs : ℚ
  burdenHrs : ℚ
  timeStatus : String
  rowMod : String
deriving DecidableEq, Repr

/-- The labor dataset exchanged with the remote service (its `LaborDtl`
table). -/
structure LaborDs where
  laborDtl : List LaborDtl
deriving DecidableEq, Repr

/-- Mutation of the first detail with the given sequence, as the
`for ... if ... break` loops of `end_activity` do. -/
def updateDtl (l : List LaborDtl) (seq : Int) (f : LaborDtl → LaborDtl) :
    List LaborDtl :=
  match l with
  | [] => []
  | d :: rest =>
    if d.laborDtlSeq = seq then f d :: rest else d :: updateDtl rest seq f

/-- The remote steps `end_activity` can perform, in the order of the code:
initial fetch, end-activity, commit update, verification fetch, direct hours
update, recall from approval, update after recall, resubmit, final logging
fetch. -/
inductive EndStep
  | getByID1
  | endActivityCall
  | updateCall
  | getByID2
  | directUpdate
  | recallCall
  | updateAfterRecall
  | submitCall
  | getByIDFinal
deriving DecidableEq, Repr

/-- Outcome of an orchestrator call: success, or the error of the failing
remote step. -/
inductive EndResult
  | ok
  | err (msg : String)
deriving DecidableEq, Repr

/-- Response oracle for the remote calls of `end_activity`: each call site
gets the success flag and the dataset the remote would return.  (The
responses of the direct-update, submit and final-fetch calls are only logged
by the code, so they need no oracle.) -/
structure EndRemote where
  getByID1 : Bool × LaborDs
  endActivity : LaborDs → Bool × LaborDs
  update1 : LaborDs → Bool
  getByID2 : Bool × LaborDs
  recallFromApproval : LaborDs → Bool × LaborDs
  update3 : LaborDs → Bool × LaborDs

/-- The hours-repair phase of `end_activity` (step 6 of the code), entered
only when hours were computed: re-fetch, compare persisted hours against the
computed value with tolerance 0.001, then repair directly (`TimeStatus = 'E'`),
or recall from approval (`'S'`/`'A'`), update and resubmit; every sub-step
failure is only logged.  Returns the trace of remote steps performed. -/
def repairHours (r : EndRemote) (laborDtlSeq : Int) (h : ℚ) : List EndStep :=
  match r.getByID2 with
  | (false, _) => [.getByID2]
  | (true, dsChk) =>
    match dsChk.laborDtl.find? fun d => d.laborDtlSeq == laborDtlSeq with
    | none => [.getByID2]
    | some d =>
      if 1 / 1000 < |d.laborHrs - h| then
        if d.timeStatus = "E" then [.getByID2, .directUpdate]
        else if d.timeStatus = "S" ∨ d.timeStatus = "A" then
          match r.recallFromApproval ⟨updateDtl dsChk.laborDtl laborDtlSeq
              fun x => { x with rowMod := "U" }⟩ with
          | (false, _) => [.getByID2, .recallCall]
          | (true, ds3) =>
            match ds3.laborDtl.find? fun x => x.laborDtlSeq == laborDtlSeq with
            | none => [.getByID2, .recallCall]
            | some d3 =>
              if d3.timeStatus = "E" then
                match r.update3 ⟨updateDtl ds3.laborDtl laborDtlSeq fun x =>
                    { x with laborHrs := h, burdenHrs := h, rowMod := "U" }⟩ with
                | (false, _) => [.getByID2, .recallCall, .updateAfterRecall]
                | (true, _) =>
                  [.getByID2, .recallCall, .updateAfterRecall, .submitCall]
              else [.getByID2, .recallCall]
        else [.getByID2]
      else [.getByID2]

/-- `end_activity` (epicor_api.py): fetch the dataset, locate the detail by
sequence (proceeding unchanged when it is absent), compute standard hours for
`int(labor_qty) + int(scrap_qty)`, set quantities/scrap/completion on the
found detail, call the remote end-activity, re-set hours, commit, then run
the best-effort hours repair; the final fetch only logs.  Returns the result
and the trace of remote steps. -/
def end_activity (db : List JobOperStd) (r : EndRemote) (laborDtlSeq : Int)
    (laborQty scrapQty : Int) (scrapReason : String) (complete : Bool) :
    EndResult × List EndStep :=
  match r.getByID1 with
  | (false, _) => (.err "GetByID failed", [.getByID1])
  | (true, ds0) =>
    let totalQty : Int := laborQty + scrapQty
    let found := ds0.laborDtl.find? fun d => d.laborDtlSeq == laborDtlSeq
    let calculatedHours : Option ℚ :=
      match found with
      | none => none
      | some d =>
        calculate_labor_hours db d.jobNum d.assemblySeq d.oprSeq (totalQty : ℚ)
    let ds1 : LaborDs :=
      match found with
      | none => ds0
      | some _ =>
        ⟨updateDtl ds0.laborDtl laborDtlSeq fun d =>
          { d with laborQty := (laborQty : ℚ), scrapQty := (scrapQty : ℚ),
                   scrapReasonCode :=
                     if 0 < scrapQty ∧ scrapReason ≠ "" then scrapReason
                     else d.scrapReasonCode,
                   opComplete := if complete then true else d.opComplete,
                   rowMod := "U" }⟩
    match r.endActivity ds1 with
    | (false, _) => (.err "EndActivity failed", [.getByID1, .endActivityCall])
    | (true, dsE) =>
      let ds2 : LaborDs :=
        match calculatedHours with
        | none => dsE
        | some h =>
          ⟨updateDtl dsE.laborDtl laborDtlSeq fun d =>
            { d with laborHrs := h, burdenHrs := h, rowMod := "U" }⟩
      if r.update1 ds2 = false then
        (.err "Update after EndActivity failed",
          [.getByID1, .endActivityCall, .updateCall])
      else
        let trRepair : List EndStep :=
          match calculatedHours with
          | none => []
          | some h => repairHours r laborDtlSeq h
        (.ok, [.getByID1, .endActivityCall, .updateCall] ++ trRepair
          ++ [.getByIDFinal])

/-- C4: the expected-hours computation of EndLabor.  For quantity `q` the
hours are `q * std` (HP), `q * std / 60` (MP), `q / std` (PH),
`q / std / 60` (PM) and `std` independent of `q` (HR); a zero standard gives
0 for every format; an unrecognized tag gives no hours, and `end_activity`
still proceeds to a successful end of activity without any hours-correction
step (its trace holds only fetch, end-activity, update and the final logging
fetch). -/
theorem labor_hours_formulas (j : String) (a o : Int) (std q : ℚ)
    (fmt : String) :
    calculate_labor_hours [⟨j, a, o, some std, some "HP"⟩] j a o q
        = some (q * std) ∧
    calculate_labor_hours [⟨j, a, o, some std, some "MP"⟩] j a o q
        = some (q * std / 60) ∧
    calculate_labor_hours [⟨j, a, o, some std, some "PH"⟩] j a o q
        = some (q / std) ∧
    calculate_labor_hours [⟨j, a, o, some std, some "PM"⟩] j a o q
        = some (q / std / 60) ∧
    calculate_labor_hours [⟨j, a, o, some std, some "HR"⟩] j a o q
        = some std ∧
    (std = 0 →
      calculate_labor_hours [⟨j, a, o, some std, some fmt⟩] j a o q = some 0) ∧
    (std ≠ 0 → fmt ∉ (["HP", "MP", "PH", "PM", "HR"] : List String) →
      calculate_labor_hours [⟨j, a, o, some std, some fmt⟩] j a o q = none) ∧
    (∀ (r : EndRemote) (ds0 : LaborDs) (d : LaborDtl) (lq sq : Int)
        (sr : String) (c : Bool),
      std ≠ 0 → fmt ∉ (["HP", "MP", "PH", "PM", "HR"] : List String) →
      r.getByID1 = (true, ds0) →
      (ds0.laborDtl.find? fun x => x.laborDtlSeq == d.laborDtlSeq) = some d →
      d.jobNum = j → d.assemblySeq = a → d.oprSeq = o →
      (∀ ds, (r.endActivity ds).1 = true) → (∀ ds, r.update1 ds = true) →
      end_activity [⟨j, a, o, some std, some fmt⟩] r d.laborDtlSeq lq sq sr c =
        (.ok, [.getByID1, .endActivityCall, .updateCall, .getByIDFinal])) := by
  have hfilter : ∀ f : String,
      (([⟨j, a, o, some std, some f⟩] : List JobOperStd).filter fun row =>
        row.jobNum == j && row.assemblySeq == a && row.oprSeq == o)
      = [⟨j, a, o, some std, some f⟩] := by
    intro f
    simp
  have hformula : ∀ f : String,
      calculate_labor_hours [⟨j, a, o, some std, some f⟩] j a o q
        = if std = 0 then some 0
          else if f = "HP" then some (q * std)
          else if f = "MP" then some (q * std / 60)
          else if f = "PH" then some (q / std)
          else if f = "PM" then some (q / std / 60)
          else if f = "HR" then some std
          else none := by
    intro f
    unfold calculate_labor_hours
    rw [hfilter]
    rfl
  have hnone : ∀ (q' : ℚ), std ≠ 0 →
      fmt ∉ (["HP", "MP", "PH", "PM", "HR"] : List String) →
      calculate_labor_hours [⟨j, a, o, some std, some fmt⟩] j a o q' = none := by
    intro q' hstd hfmt
    simp only [List.mem_cons, List.mem_singleton, not_or] at hfmt
    obtain ⟨f1, f2, f3, f4, ⟨f5, _⟩⟩ := hfmt
    unfold calculate_labor_hours
    rw [hfilter]
    simp only [Option.getD_some]
    rw [if_neg hstd, if_neg f1, if_neg f2, if_neg f3, if_neg f4, if_neg f5]
  refine ⟨?_, ?_, ?_, ?_, ?_, ?_, fun hstd hfmt => hnone q hstd hfmt, ?_⟩
  · rw [hformula]
    by_cases hstd : std = 0 <;> simp [hstd, mul_zero, zero_div, div_zero]
  · rw [hformula]
    by_cases hstd : std = 0 <;> simp [hstd, mul_zero, zero_div, div_zero]
  · rw [hformula]
    by_cases hstd : std = 0 <;> simp [hstd, mul_zero, zero_div, div_zero]
  · rw [hformula]
    by_cases hstd : std = 0 <;> simp [hstd, mul_zero, zero_div, div_zero]
  · rw [hformula]
    by_cases hstd : std = 0 <;> simp [hstd, mul_zero, zero_div, div_zero]
  · intro hstd
    rw [hformula, if_pos hstd]
  · intro r ds0 d lq sq sr c hstd hfmt h1 hfind hdj hda hdo hEA hU1
    have hEA' : ∀ ds, r.endActivity ds = (true, (r.endActivity ds).2) :=
      fun ds => Prod.ext (hEA ds) rfl
    unfold end_activity
    rw [h1]
    simp only [hfind, hdj, hda, hdo, hnone _ hstd hfmt]
    rw [hEA']
    simp only [hU1, Bool.true_eq_false, if_false]
    rfl

/-- Witness for `labor_hours_formulas` on the specification's examples
(standard 2 HP, standard 30 MP) and a concrete unknown tag `ZZ` with
standard 3: end-of-activity still succeeds with no hours-correction step. -/
theorem labor_hours_formulas_witness :
    calculate_labor_hours [⟨"J1", 0, 10, some 2, some "HP"⟩] "J1" 0 10 10
        = some (10 * 2) ∧
    calculate_labor_hours [⟨"J1", 0, 10, some 30, some "MP"⟩] "J1" 0 10 10
        = some (10 * 30 / 60) ∧
    end_activity [⟨"J1", 0, 10, some 3, some "ZZ"⟩]
        ⟨(true, ⟨[⟨1, "J1", 0, 10, 0, 0, "", false, 0, 0, "E", ""⟩]⟩),
          fun ds => (true, ds), fun _ => true, (true, ⟨[]⟩),
          fun ds => (true, ds), fun ds => (true, ds)⟩ 1 5 0 "" false =
      (.ok, [.getByID1, .endActivityCall, .updateCall, .getByIDFinal]) := by
  refine ⟨(labor_hours_formulas "J1" 0 10 2 10 "ZZ").1,
    (labor_hours_formulas "J1" 0 10 30 10 "ZZ").2.1, ?_⟩
  exact (labor_hours_formulas "J1" 0 10 3 10 "ZZ").2.2.2.2.2.2.2
    _ _ ⟨1, "J1", 0, 10, 0, 0, "", false, 0, 0, "E", ""⟩ 5 0 "" false
    (by norm_num) (by decide) rfl (by decide) rfl rfl rfl
    (fun ds => rfl) (fun ds => rfl)

/-- C5 (amended): when the fetched dataset holds no labor detail with the
given sequence, `end_activity` does not fail on that account — it computes no
hours, leaves the dataset untouched, performs no hours correction, and
reports success as soon as the fetch, end-activity and update steps succeed. -/
theorem end_activity_missing_detail (db : List JobOperStd) (r : EndRemote)
    (seq lq sq : Int) (sr : String) (c : Bool) (ds0 dsE : LaborDs)
    (h1 : r.getByID1 = (true, ds0))
    (hmiss : (ds0.laborDtl.find? fun d => d.laborDtlSeq == seq) = none)
    (h2 : r.endActivity ds0 = (true, dsE))
    (h3 : r.update1 dsE = true) :
    end_activity db r seq lq sq sr c =
      (.ok, [.getByID1, .endActivityCall, .updateCall, .getByIDFinal]) := by
  unfold end_activity
  rw [h1]
  simp only [hmiss]
  rw [h2]
  simp only [h3, Bool.true_eq_false, if_false]
  rfl

/-- Oracle for the C5 counterexample: the fetched dataset holds only detail
sequence 2, every remote step succeeds. -/
def remC5 : EndRemote :=
  ⟨(true, ⟨[⟨2, "J1", 0, 10, 0, 0, "", false, 0, 0, "E", ""⟩]⟩),
    fun ds => (true, ds), fun _ => true, (true, ⟨[]⟩),
    fun ds => (true, ds), fun ds => (true, ds)⟩

/-- C5 is false as stated: calling `end_activity` for detail sequence 1 when
the header's dataset only holds detail sequence 2 does NOT fail — the
operation runs to completion and reports success. -/
theorem end_activity_missing_detail_counterexample :
    ((⟨[⟨2, "J1", 0, 10, 0, 0, "", false, 0, 0, "E", ""⟩]⟩ : LaborDs).laborDtl.find?
        fun d => d.laborDtlSeq == 1) = none ∧
    (end_activity [] remC5 1 5 0 "" false).1 = EndResult.ok := by
  constructor
  · decide
  · decide

/-- Witness for `end_activity_missing_detail` at the concrete oracle
`remC5`. -/
theorem end_activity_missing_detail_witness :
    end_activity [] remC5 1 5 0 "" false =
      (.ok, [.getByID1, .endActivityCall, .updateCall, .getByIDFinal]) :=
  end_activity_missing_detail [] remC5 1 5 0 "" false
    ⟨[⟨2, "J1", 0, 10, 0, 0, "", false, 0, 0, "E", ""⟩]⟩
    ⟨[⟨2, "J1", 0, 10, 0, 0, "", false, 0, 0, "E", ""⟩]⟩
    rfl (by decide) rfl rfl

/-- A `KanbanReceipts` record with the fields `kanban_receipt` writes. -/
structure KanbanRec where
  partNum : String
  quantity : ℚ
  warehouseCode : String
  binNum : String
  employeeID : String
  scrapQuantity : ℚ
  scrapReason : String
  validateOK : Bool
deriving DecidableEq, Repr

/-- The kanban dataset exchanged with the remote service. -/
structure KanbanDs where
  kanbanReceipts : List KanbanRec
deriving DecidableEq, Repr

/-- Field assignment on `ds['KanbanReceipts'][0]`, guarded by the record list
being nonempty, as the Python code does. -/
def setFirstKr (ds : KanbanDs) (f : KanbanRec → KanbanRec) : KanbanDs :=
  match ds.kanbanReceipts with
  | [] => ds
  | kr :: rest => ⟨f kr :: rest⟩

/-- The remote steps of `kanban_receipt`, in call order. -/
inductive KStep
  | getNew
  | changePart
  | changeWarehouse
  | changeBin
  | preProcess
  | processCall
deriving DecidableEq, Repr

/-- Outcome of the kanban orchestrator. -/
inductive KResult
  | ok
  | err (msg : String)
deriving DecidableEq, Repr

/-- The error message `kanban_receipt` returns for a failing remote step. -/
def kanbanStepError : KStep → String
  | .getNew => "KanbanReceiptsGetNew failed"
  | .changePart => "ChangePart failed"
  | .changeWarehouse => "ChangeWarehouse failed"
  | .changeBin => "ChangeBin failed"
  | .preProcess => "PreProcessKanbanReceipts failed"
  | .processCall => "ProcessKanbanReceipts failed"

/-- Response oracle for the remote calls of `kanban_receipt`: per call site
the success flag and the returned dataset (the commit returns no dataset the
code uses). -/
structure KanbanRemote where
  getNew : Bool × KanbanDs
  changePart : KanbanDs → Bool × KanbanDs
  changeWarehouse : KanbanDs → Bool × KanbanDs
  changeBin : KanbanDs → Bool × KanbanDs
  preProcess : KanbanDs → Bool × KanbanDs
  processKanban : KanbanDs → Bool

/-- The pre-validate-and-commit tail of `kanban_receipt`: pre-validate the
dataset, set `ValidateOK` on the record, commit; a pre-validate or commit
failure aborts with its error.  `okW`/`okB` are the already-recorded success
flags of the change-warehouse and change-bin steps. -/
def kanbanTail (r : KanbanRemote) (okW okB : Bool) (ds5 : KanbanDs) :
    KResult × List (KStep × Bool) :=
  match r.preProcess ds5 with
  | (false, _) =>
    (.err "PreProcessKanbanReceipts failed",
      [(.getNew, true), (.changePart, true), (.changeWarehouse, okW),
       (.changeBin, okB), (.preProcess, false)])
  | (true, ds6) =>
    if r.processKanban (setFirstKr ds6 fun kr =>
        { kr with validateOK := true }) then
      (.ok,
        [(.getNew, true), (.changePart, true), (.changeWarehouse, okW),
         (.changeBin, okB), (.preProcess, true), (.processCall, true)])
    else
      (.err "ProcessKanbanReceipts failed",
        [(.getNew, true), (.changePart, true), (.changeWarehouse, okW),
         (.changeBin, okB), (.preProcess, true), (.processCall, false)])

/-- `kanban_receipt` (epicor_api.py): get-new, set part, change-part, set
quantity/warehouse/bin/employee/scrap, change-warehouse and change-bin
(failures of these two are only logged and the previous dataset is kept),
then the pre-validate-and-commit tail.  Failures of get-new, change-part,
pre-validate and commit abort with the step's error.  Returns the outcome and
the trace of remote steps with their success flags. -/
def kanban_receipt (r : KanbanRemote) (empId partNum : String) (quantity : ℚ)
    (warehouse binNum : String) (scrap : ℚ) (scrapReason : String) :
    KResult × List (KStep × Bool) :=
  match r.getNew with
  | (false, _) => (.err "KanbanReceiptsGetNew failed", [(.getNew, false)])
  | (true, ds0) =>
    if ds0.kanbanReceipts.isEmpty then
      (.err "No KanbanReceipts record created by GetNew", [(.getNew, true)])
    else
      match r.changePart (setFirstKr ds0 fun kr =>
          { kr with partNum := partNum }) with
      | (false, _) =>
        (.err "ChangePart failed", [(.getNew, true), (.changePart, false)])
      | (true, ds2) =>
        let ds3 := setFirstKr ds2 fun kr =>
          { kr with quantity := quantity, warehouseCode := warehouse,
                    binNum := binNum, employeeID := empId,
                    scrapQuantity :=
                      if 0 < scrap ∧ scrapReason ≠ "" then scrap
                      else kr.scrapQuantity,
                    scrapReason :=
                      if 0 < scrap ∧ scrapReason ≠ "" then scrapReason
                      else kr.scrapReason }
        let okW := (r.changeWarehouse ds3).1
        let ds4 := if okW then (r.changeWarehouse ds3).2 else ds3
        let okB := (r.changeBin ds4).1
        let ds5 := if okB then (r.changeBin ds4).2 else ds4
        kanbanTail r okW okB ds5

/-- C6 (amended): `kanban_receipt` succeeds exactly when no mandatory step
(get-new, change-part, pre-validate, commit) failed; a failing mandatory step
is the last remote step performed (no subsequent steps are invoked) and its
remote error is the returned error; a change-warehouse or change-bin failure
is only logged and does not abort.  The get-new response is assumed to carry
a `KanbanReceipts` record, ruling out the separate empty-dataset error. -/
theorem kanbanTail_spec (r : KanbanRemote) (okW okB : Bool) (ds5 : KanbanDs)
    (res : KResult) (tr : List (KStep × Bool))
    (hout : kanbanTail r okW okB ds5 = (res, tr)) :
    ((res = KResult.ok) ↔ ∀ sb ∈ tr, sb.2 = false →
        sb.1 = KStep.changeWarehouse ∨ sb.1 = KStep.changeBin) ∧
    (∀ sb ∈ tr, sb.2 = false → sb.1 ≠ KStep.changeWarehouse →
      sb.1 ≠ KStep.changeBin →
      tr.getLast? = some sb ∧ res = KResult.err (kanbanStepError sb.1)) := by
  unfold kanbanTail at hout
  split at hout
  · cases hout
    cases okW <;> cases okB <;> decide
  · split at hout
    · cases hout
      cases okW <;> cases okB <;> decide
    · cases hout
      cases okW <;> cases okB <;> decide

theorem kanban_receipt_abort (r : KanbanRemote) (empId partNum : String)
    (quantity : ℚ) (warehouse binNum : String) (scrap : ℚ)
    (scrapReason : String) (res : KResult) (tr : List (KStep × Bool))
    (hne : (r.getNew).2.kanbanReceipts ≠ [])
    (hout : kanban_receipt r empId partNum quantity warehouse binNum scrap
      scrapReason = (res, tr)) :
    ((res = KResult.ok) ↔ ∀ sb ∈ tr, sb.2 = false →
        sb.1 = KStep.changeWarehouse ∨ sb.1 = KStep.changeBin) ∧
    (∀ sb ∈ tr, sb.2 = false → sb.1 ≠ KStep.changeWarehouse →
      sb.1 ≠ KStep.changeBin →
      tr.getLast? = some sb ∧ res = KResult.err (kanbanStepError sb.1)) := by
  unfold kanban_receipt at hout
  split at hout
  · cases hout
    decide
  · split at hout
    · rename_i ds0 heq hemp
      rw [heq] at hne
      rw [List.isEmpty_iff] at hemp
      exact absurd hemp hne
    · split at hout
      · cases hout
        decide
      · simp only [] at hout
        exact kanbanTail_spec r _ _ _ res tr hout

/-- A get-new response carrying one blank `KanbanReceipts` record. -/
def kanbanDsOne : KanbanDs := ⟨[⟨"", 0, "", "", "", 0, "", false⟩]⟩

/-- Oracle for the C6 counterexample: change-warehouse fails, every other
remote step succeeds. -/
def remC6 : KanbanRemote :=
  ⟨(true, kanbanDsOne), fun ds => (true, ds), fun _ => (false, ⟨[]⟩),
    fun ds => (true, ds), fun ds => (true, ds), fun _ => true⟩

/-- C6 is false as stated: when the change-warehouse step fails, the
orchestrator does NOT abort — it invokes the remaining steps, including the
commit, and returns success. -/
theorem kanban_receipt_abort_counterexample :
    (kanban_receipt remC6 "1" "P" 5 "PROD" "PR-01" 0 "").1 = KResult.ok ∧
    (KStep.changeWarehouse, false) ∈
      (kanban_receipt remC6 "1" "P" 5 "PROD" "PR-01" 0 "").2 ∧
    (KStep.processCall, true) ∈
      (kanban_receipt remC6 "1" "P" 5 "PROD" "PR-01" 0 "").2 := by
  decide

/-- Oracle for the C6 witness: the pre-validate step fails, everything else
succeeds. -/
def remC6b : KanbanRemote :=
  ⟨(true, kanbanDsOne), fun ds => (true, ds), fun ds => (true, ds),
    fun ds => (true, ds), fun _ => (false, ⟨[]⟩), fun _ => true⟩

/-- Witness for `kanban_receipt_abort`: with a failing pre-validate step the
pre-validate failure is the last remote step and its error is returned. -/
theorem kanban_receipt_abort_witness :
    (kanban_receipt remC6b "1" "P" 5 "PROD" "PR-01" 0 "").2.getLast?
        = some (KStep.preProcess, false) ∧
    (kanban_receipt remC6b "1" "P" 5 "PROD" "PR-01" 0 "").1
        = KResult.err (kanbanStepError KStep.preProcess) := by
  have h := kanban_receipt_abort remC6b "1" "P" 5 "PROD" "PR-01" 0 ""
    (kanban_receipt remC6b "1" "P" 5 "PROD" "PR-01" 0 "").1
    (kanban_receipt remC6b "1" "P" 5 "PROD" "PR-01" 0 "").2
    (by decide) Prod.mk.eta.symm
  exact h.2 (KStep.preProcess, false) (by decide) rfl (by decide) (by decide)

end TheQueue
